import Mathlib

/-!
# BaseMaterialForceField

A shallow embedding of `applications/plugins/Flexible/material/BaseMaterialForceField.h`
(the material force-field engine of the Flexible plugin of SOFA) and the
properties of it that are established below.

Conventions of the embedding.

* `helper::vector` buffers are `List`s.  An indexed access `v[i]` is `v[i]?`;
  an access outside the buffer makes the enclosing operation return `none`.
* The engine is generic in its material block type.  The block interface
  (`BaseMaterial.h`) is a parameter, `BlockType`.
* The motion state is external to the engine: the engine holds a reference to
  it, embedded as the position vector that `readPositions()` returns, or `none`
  for a null pointer.
* Scalars and vectors are taken in exact arithmetic: any type with an addition
  and a scalar action.
-/

namespace Flexible

/-! ## Material blocks -/

/-- A material block as the engine sees it: the non-owning reference to its
quadrature volume (`volume`, a pointer into the weight array of the Gauss point
sampler, embedded as the index it points at, `none` for `NULL`) and the
constitutive data of the block, which the engine never inspects. -/
structure MaterialBlock (P : Type) where
  volume : Option Nat
  params : P
deriving DecidableEq

/-- The interface of the template parameter `MaterialBlockType`: the static
flag `constantK`, the default-constructed block (used by `vector::resize`), the
force law `addForce(f,x,v)`, which updates `f` in place and may update the
block, the linearized force law `addDForce(df,dx,kfactor,bfactor)`, and the three
matrix accessors `getC`, `getK`, `getB`. -/
structure BlockType (P Coord Deriv MatBlock Real : Type) where
  constantK : Bool
  fresh : MaterialBlock P
  addForce : MaterialBlock P → Deriv → Coord → Deriv → MaterialBlock P × Deriv
  addDForce : MaterialBlock P → Deriv → Deriv → Real → Real → Deriv
  getC : MaterialBlock P → MatBlock
  getK : MaterialBlock P → MatBlock
  getB : MaterialBlock P → MatBlock

/-! ## The block-sparse operator -/

/-- Modelled from the spec: the block-sparse operator `EigenSparseMatrix`, whose
header is not among the sources.  It is a collection of dense blocks positioned
at (row, column) block coordinates: `blocks` is the query-ready (compressed)
content, `incoming` holds the blocks inserted since the last `compress`, and
`openRow` is the row opened by `beginBlockRow` and not yet closed. -/
structure BlockSparse (MatBlock : Type) where
  nbBlockRows : Nat
  nbBlockCols : Nat
  blocks : List (Nat × Nat × MatBlock)
  incoming : List (Nat × Nat × MatBlock)
  openRow : Option Nat
deriving DecidableEq

namespace BlockSparse

variable {MatBlock : Type}

/-- Modelled from the spec: an operator is created empty. -/
def empty : BlockSparse MatBlock :=
  { nbBlockRows := 0, nbBlockCols := 0, blocks := [], incoming := [], openRow := none }

/-- Modelled from the spec: `resizeBlocks(r,c)` starts a full rebuild, the
operator gets `r × c` blocks and loses its previous content. -/
def resizeBlocks (_op : BlockSparse MatBlock) (r c : Nat) : BlockSparse MatBlock :=
  { nbBlockRows := r, nbBlockCols := c, blocks := [], incoming := [], openRow := none }

/-- Modelled from the spec: `beginBlockRow(i)` opens a new row at `i`. -/
def beginBlockRow (op : BlockSparse MatBlock) (i : Nat) : BlockSparse MatBlock :=
  { op with openRow := some i }

/-- Modelled from the spec: `createBlock(j,b)` inserts the block `b` at column
`j` of the open row. -/
def createBlock (op : BlockSparse MatBlock) (j : Nat) (b : MatBlock) : BlockSparse MatBlock :=
  match op.openRow with
  | some i => { op with incoming := op.incoming ++ [(i, j, b)] }
  | none => op

/-- Modelled from the spec: `endBlockRow()` closes the open row. -/
def endBlockRow (op : BlockSparse MatBlock) : BlockSparse MatBlock :=
  { op with openRow := none }

/-- Modelled from the spec: `compress()` brings the inserted blocks into the
query-ready form. -/
def compress (op : BlockSparse MatBlock) : BlockSparse MatBlock :=
  { op with blocks := op.blocks ++ op.incoming, incoming := [] }

/-- The blocks stored at block coordinates `(r, c)`. -/
def blocksAt (op : BlockSparse MatBlock) (r c : Nat) : List MatBlock :=
  (op.blocks.filter (fun t => decide (t.1 = r) && decide (t.2.1 = c))).map (fun t => t.2.2)

end BlockSparse

/-- Modelled from the spec: the multiply-accumulate of stored blocks,
`result[r] += fact * b * data[c]` for every stored block `b` at `(r, c)`, in
storage order.  `mulVec` is the product of a block with a vector. -/
def addMultBlocks {MatBlock Deriv Real : Type} [Add Deriv] [SMul Real Deriv]
    (mulVec : MatBlock → Deriv → Deriv) :
    List (Nat × Nat × MatBlock) → List Deriv → List Deriv → Real → Option (List Deriv)
  | [], result, _, _ => some result
  | (r, c, b) :: rest, result, data, fact =>
    match result[r]?, data[c]? with
    | some fr, some dc => addMultBlocks mulVec rest (result.set r (fr + fact • mulVec b dc)) data fact
    | _, _ => none

/-- Modelled from the spec: `addMult(result, data, fact)`, the multiply-accumulate
entry point of the operator, `result += fact * M * data`. -/
def BlockSparse.addMult {MatBlock Deriv Real : Type} [Add Deriv] [SMul Real Deriv]
    (mulVec : MatBlock → Deriv → Deriv) (op : BlockSparse MatBlock)
    (result data : List Deriv) (fact : Real) : Option (List Deriv) :=
  addMultBlocks mulVec op.blocks result data fact

/-! ## The engine -/

/-- The state of a `BaseMaterialForceField`: the bound motion state (its
position vector, `none` when `mstate` is null), the material blocks, the three
operators with their assemble flags, and the `isCompliance` flag. -/
structure BaseMaterialForceField (P Coord MatBlock : Type) where
  mstate : Option (List Coord)
  material : List (MaterialBlock P)
  assembleC : Bool
  C : BlockSparse MatBlock
  assembleK : Bool
  K : BlockSparse MatBlock
  assembleB : Bool
  B : BlockSparse MatBlock
  isCompliance : Bool
deriving DecidableEq

section Engine

variable {P Coord Deriv MatBlock Real : Type}

/-- The constructor `BaseMaterialForceField(mm)`: every flag is false, the
material array and the operators are empty. -/
def construct (mm : Option (List Coord)) : BaseMaterialForceField P Coord MatBlock :=
  { mstate := mm, material := [],
    assembleC := false, C := BlockSparse.empty,
    assembleK := false, K := BlockSparse.empty,
    assembleB := false, B := BlockSparse.empty,
    isCompliance := false }

/-- A freshly constructed engine whose four flags have then been set. -/
def constructWith (mm : Option (List Coord)) (assembleC assembleK assembleB isCompliance : Bool) :
    BaseMaterialForceField P Coord MatBlock :=
  { (construct mm : BaseMaterialForceField P Coord MatBlock) with
    assembleC := assembleC, assembleK := assembleK, assembleB := assembleB,
    isCompliance := isCompliance }

/-- The loop of `updateC`, `updateK` and `updateB`, from element index `i` on:
`op.beginBlockRow(i); op.createBlock(i, get(material[i])); op.endBlockRow();`. -/
def fillBlockRows (get : MaterialBlock P → MatBlock) :
    List (MaterialBlock P) → Nat → BlockSparse MatBlock → BlockSparse MatBlock
  | [], _, op => op
  | m :: ms, i, op =>
    fillBlockRows get ms (i + 1) (((op.beginBlockRow i).createBlock i (get m)).endBlockRow)

/-- The body of `updateC`, `updateK` and `updateB` once the motion state is
known to be bound: resize to `X.size() × X.size()` blocks, fill one block row
per material block, compress. -/
def rebuild (get : MaterialBlock P → MatBlock) (X : List Coord)
    (material : List (MaterialBlock P)) (op : BlockSparse MatBlock) : BlockSparse MatBlock :=
  (fillBlockRows get material 0 (op.resizeBlocks X.length X.length)).compress

/-- The method `updateC()`. -/
def updateC (bt : BlockType P Coord Deriv MatBlock Real)
    (e : BaseMaterialForceField P Coord MatBlock) : BaseMaterialForceField P Coord MatBlock :=
  match e.mstate with
  | none => e
  | some X => { e with C := rebuild bt.getC X e.material e.C }

/-- The method `updateK()`. -/
def updateK (bt : BlockType P Coord Deriv MatBlock Real)
    (e : BaseMaterialForceField P Coord MatBlock) : BaseMaterialForceField P Coord MatBlock :=
  match e.mstate with
  | none => e
  | some X => { e with K := rebuild bt.getK X e.material e.K }

/-- The method `updateB()`. -/
def updateB (bt : BlockType P Coord Deriv MatBlock Real)
    (e : BaseMaterialForceField P Coord MatBlock) : BaseMaterialForceField P Coord MatBlock :=
  match e.mstate with
  | none => e
  | some X => { e with B := rebuild bt.getB X e.material e.B }

/-- The three guarded rebuilds shared by `reinit` and `addForce`:
`if(assembleC) updateC(); if(assembleK) updateK(); if(assembleB) updateB();`. -/
def updateEnabled (bt : BlockType P Coord Deriv MatBlock Real)
    (e : BaseMaterialForceField P Coord MatBlock) : BaseMaterialForceField P Coord MatBlock :=
  let e1 := if e.assembleC then updateC bt e else e
  let e2 := if e1.assembleK then updateK bt e1 else e1
  if e2.assembleB then updateB bt e2 else e2

/-- The method `reinit()`.  The inherited `reinit` touches no member of the
engine. -/
def reinit (bt : BlockType P Coord Deriv MatBlock Real)
    (e : BaseMaterialForceField P Coord MatBlock) : BaseMaterialForceField P Coord MatBlock :=
  updateEnabled bt e

/-- The call `material.resize(n)` of `helper::vector`: the first `n` blocks are
kept, missing ones are default-constructed. -/
def resizeMaterial (fresh : MaterialBlock P) (material : List (MaterialBlock P)) (n : Nat) :
    List (MaterialBlock P) :=
  material.take n ++ List.replicate (n - material.length) fresh

/-- The loop `material[i].volume = &sampler->f_volume.getValue()[i]` of `init`,
from index `i` on; `weights` is the sampler's volume array. -/
def bindVolumes {W : Type} (weights : List W) :
    List (MaterialBlock P) → Nat → Option (List (MaterialBlock P))
  | [], _ => some []
  | m :: ms, i =>
    if i < weights.length then
      match bindVolumes weights ms (i + 1) with
      | some ms1 => some ({ m with volume := some i } :: ms1)
      | none => none
    else none

/-- The method `init()`.  `ctxState` is what
`dynamic_cast<mstateType*>(getContext()->getMechanicalState())` yields (`none`
for a null or incompatible state), `sampler` is the volume array of the Gauss
point sampler found by the upward search (`none` when there is no sampler).
The inherited `init` touches no member of the engine. -/
def init {W : Type} (bt : BlockType P Coord Deriv MatBlock Real)
    (ctxState : Option (List Coord)) (sampler : Option (List W))
    (e : BaseMaterialForceField P Coord MatBlock) :
    Option (BaseMaterialForceField P Coord MatBlock) :=
  let bound := match e.mstate with
    | some X => some X
    | none => ctxState
  match bound with
  | none => some e
  | some X =>
    let material := resizeMaterial bt.fresh e.material X.length
    match sampler with
    | none =>
      some (reinit bt { e with mstate := some X,
                               material := material.map (fun m => { m with volume := none }) })
    | some weights =>
      match bindVolumes weights material 0 with
      | some weighted => some (reinit bt { e with mstate := some X, material := weighted })
      | none => none

/-- The loop of `addForce`, from element index `i` on:
`material[i].addForce(f[i],x[i],v[i])`. -/
def addForceLoop (bt : BlockType P Coord Deriv MatBlock Real) :
    List (MaterialBlock P) → Nat → List Deriv → List Coord → List Deriv →
      Option (List (MaterialBlock P) × List Deriv)
  | [], _, f, _, _ => some ([], f)
  | m :: ms, i, f, x, v =>
    match f[i]?, x[i]?, v[i]? with
    | some fi, some xi, some vi =>
      match addForceLoop bt ms (i + 1) (f.set i (bt.addForce m fi xi vi).2) x v with
      | some (ms1, f1) => some ((bt.addForce m fi xi vi).1 :: ms1, f1)
      | none => none
    | _, _, _ => none

/-- The method `addForce(mparams, f, x, v)`: the engine and the force buffer
after the call. -/
def addForce (bt : BlockType P Coord Deriv MatBlock Real)
    (e : BaseMaterialForceField P Coord MatBlock)
    (f : List Deriv) (x : List Coord) (v : List Deriv) :
    Option (BaseMaterialForceField P Coord MatBlock × List Deriv) :=
  if e.isCompliance then some (e, f)
  else
    match addForceLoop bt e.material 0 f x v with
    | none => none
    | some (material, f1) =>
      let e1 := { e with material := material }
      if !bt.constantK then some (updateEnabled bt e1, f1) else some (e1, f1)

/-- The loop of the matrix-free branch of `addDForce`, from element index `i`
on: `material[i].addDForce(df[i],dx[i],kFactor,bFactor)`. -/
def addDForceLoop (bt : BlockType P Coord Deriv MatBlock Real) :
    List (MaterialBlock P) → Nat → List Deriv → List Deriv → Real → Real → Option (List Deriv)
  | [], _, df, _, _, _ => some df
  | m :: ms, i, df, dx, kFactor, bFactor =>
    match df[i]?, dx[i]? with
    | some dfi, some dxi =>
      addDForceLoop bt ms (i + 1) (df.set i (bt.addDForce m dfi dxi kFactor bFactor)) dx
        kFactor bFactor
    | _, _ => none

/-- The method `addDForce(mparams, df, dx)`, with `kFactor` and `bFactor` the two
factors of `mparams`: the force-delta buffer after the call. -/
def addDForce [Add Deriv] [SMul Real Deriv] (mulVec : MatBlock → Deriv → Deriv)
    (bt : BlockType P Coord Deriv MatBlock Real)
    (e : BaseMaterialForceField P Coord MatBlock)
    (df dx : List Deriv) (kFactor bFactor : Real) : Option (List Deriv) :=
  if e.isCompliance then some df
  else if e.assembleK then
    match e.K.addMult mulVec df dx kFactor with
    | none => none
    | some df1 => if e.assembleB then e.B.addMult mulVec df1 dx bFactor else some df1
  else addDForceLoop bt e.material 0 df dx kFactor bFactor

/-- The method `getComplianceMatrix(mparams)`: the engine after the call and the
operator the returned pointer refers to (`none` for `NULL`). -/
def getComplianceMatrix (bt : BlockType P Coord Deriv MatBlock Real)
    (e : BaseMaterialForceField P Coord MatBlock) :
    BaseMaterialForceField P Coord MatBlock × Option (BlockSparse MatBlock) :=
  if !e.isCompliance then (e, none)
  else
    let e1 := if !e.assembleC then updateC bt e else e
    (e1, some e1.C)

/-- The method `getStiffnessMatrix(mparams)`. -/
def getStiffnessMatrix (bt : BlockType P Coord Deriv MatBlock Real)
    (e : BaseMaterialForceField P Coord MatBlock) :
    BaseMaterialForceField P Coord MatBlock × Option (BlockSparse MatBlock) :=
  if e.isCompliance then (e, none)
  else
    let e1 := if !e.assembleK then updateK bt e else e
    (e1, some e1.K)

/-- The method `getB(mparams)`, the damping matrix accessor. -/
def getB (bt : BlockType P Coord Deriv MatBlock Real)
    (e : BaseMaterialForceField P Coord MatBlock) :
    BaseMaterialForceField P Coord MatBlock × Option (BlockSparse MatBlock) :=
  let e1 := if !e.assembleB then updateB bt e else e
  (e1, some e1.B)

/-! ## The block-diagonal assembly -/

/-- The diagonal blocks of the material blocks, from element index `i` on: one
block per material block, at row and column equal to the element index. -/
def diagBlocks (get : MaterialBlock P → MatBlock) :
    List (MaterialBlock P) → Nat → List (Nat × Nat × MatBlock)
  | [], _ => []
  | m :: ms, i => (i, i, get m) :: diagBlocks get ms (i + 1)

/-- The block-diagonal assembly of the material blocks over `n` elements: an
operator of `n × n` blocks, query-ready, whose content is the diagonal block
`get(material[i])` of every material block. -/
def blockDiag (n : Nat) (get : MaterialBlock P → MatBlock)
    (material : List (MaterialBlock P)) : BlockSparse MatBlock :=
  { nbBlockRows := n, nbBlockCols := n, blocks := diagBlocks get material 0,
    incoming := [], openRow := none }

/-- The element count of the motion state the engine is bound to; an engine
without motion state has no element. -/
def stateSize (mstate : Option (List Coord)) : Nat :=
  match mstate with
  | some X => X.length
  | none => 0

/-- The operator `op` is strictly block-diagonal over `n` elements, with the
output of the accessor `get` on the material blocks as its diagonal: it has
`n × n` blocks, exactly the block `get(material[i])` at `(i, i)` for every
`i < n`, and no block at any `(i, j)` with `i ≠ j`. -/
def BlockDiagonalOf (op : BlockSparse MatBlock) (n : Nat) (get : MaterialBlock P → MatBlock)
    (material : List (MaterialBlock P)) : Prop :=
  op.nbBlockRows = n ∧ op.nbBlockCols = n ∧
  (∀ i, i < n → ∃ m, material[i]? = some m ∧ op.blocksAt i i = [get m]) ∧
  (∀ i j, i ≠ j → op.blocksAt i j = [])

/-- The engine is in a state its own methods produce: an engine that has no
motion state has never been resized nor rebuilt, so its material array and its
three operators are empty, as constructed. -/
def Coherent (e : BaseMaterialForceField P Coord MatBlock) : Prop :=
  e.mstate = none →
    e.material = [] ∧ e.C = BlockSparse.empty ∧ e.K = BlockSparse.empty ∧ e.B = BlockSparse.empty

end Engine

/-! ## A concrete material, for the examples -/

/-- A spring-damper block over the integers: `params` is the pair (stiffness,
damping), the force law is `f -= stiffness * x + damping * v`, the stiffness,
damping and compliance blocks are `-stiffness`, `-damping` and `stiffness`, and
the linearized force law is `df += kfactor * K * dx + bfactor * B * dx`.  With
`hardening` the force law also raises the stiffness of the block by one, a
state-dependent material; `constantK` is then false. -/
def springBlock (hardening : Bool) : BlockType (Int × Int) Int Int Int Int :=
  { constantK := !hardening
    fresh := { volume := none, params := (0, 0) }
    addForce := fun m f x v =>
      ({ m with params := (if hardening then m.params.1 + 1 else m.params.1, m.params.2) },
        f - (m.params.1 * x + m.params.2 * v))
    addDForce := fun m df dx k b => df + k • ((-m.params.1) * dx) + b • ((-m.params.2) * dx)
    getC := fun m => m.params.1
    getK := fun m => -m.params.1
    getB := fun m => -m.params.2 }

/-- Two spring-damper blocks. -/
def twoSprings : List (MaterialBlock (Int × Int)) :=
  [{ volume := none, params := (2, 1) }, { volume := none, params := (3, 5) }]

/-- An engine bound to a motion state of two elements, holding `twoSprings`,
with the given flags and operators not yet built. -/
def springEngine (assembleC assembleK assembleB isCompliance : Bool) :
    BaseMaterialForceField (Int × Int) Int Int :=
  { mstate := some [0, 0], material := twoSprings,
    assembleC := assembleC, C := BlockSparse.empty,
    assembleK := assembleK, K := BlockSparse.empty,
    assembleB := assembleB, B := BlockSparse.empty,
    isCompliance := isCompliance }

end Flexible

/-! ## The sphere proxy

A shallow embedding of the contact-point functions of `TSphere` in
`SofaKernel/modules/SofaBaseCollision/SphereModel.h`, the generic template. -/

namespace Collision

/-- Modelled from the spec: the three-component vector `defaulttype::Vector3`
(`VecTypes.h` is not among the sources), with the componentwise difference and
the product by a scalar that `center() - contactNormal * r()` uses. -/
structure Vector3 (R : Type) where
  x : R
  y : R
  z : R
deriving DecidableEq

/-- Modelled from the spec: the difference of two vectors, component by
component. -/
def Vector3.sub {R : Type} [Sub R] (a b : Vector3 R) : Vector3 R :=
  { x := a.x - b.x, y := a.y - b.y, z := a.z - b.z }

/-- Modelled from the spec: the product `v * f` of a vector by a scalar,
component by component. -/
def Vector3.mulScalar {R : Type} [Mul R] (v : Vector3 R) (f : R) : Vector3 R :=
  { x := v.x * f, y := v.y * f, z := v.z * f }

/-- The part of a `SphereCollisionModel` the proxy reads: the position vector of
its motion state, the per-element radius array and the default radius. -/
structure SphereCollisionModel (R Coord : Type) where
  positions : List Coord
  radius : List R
  defaultRadius : R

/-- Modelled from the spec: `getRadius(i)`, whose body is not among the sources:
the entry `i` of the radius array if that array is sized to the element count,
else the default radius. -/
def SphereCollisionModel.getRadius {R Coord : Type} (m : SphereCollisionModel R Coord)
    (i : Nat) : Option R :=
  if m.radius.length = m.positions.length then m.radius[i]? else some m.defaultRadius

/-- The proxy `TSphere`: a model and the index of one of its elements. -/
structure TSphere (R Coord : Type) where
  model : SphereCollisionModel R Coord
  index : Nat

/-- The accessor `center()`: `getCPos` of the position of the element; `none`
when the index is outside the position vector. -/
def TSphere.center {R Coord : Type} (getCPos : Coord → Vector3 R) (s : TSphere R Coord) :
    Option (Vector3 R) :=
  (s.model.positions[s.index]?).map getCPos

/-- The accessor `r()`: `model->getRadius(index)`. -/
def TSphere.r {R Coord : Type} (s : TSphere R Coord) : Option R :=
  s.model.getRadius s.index

/-- The method `getContactPointByNormal(contactNormal)` of the generic template:
`center() - contactNormal * r()`. -/
def TSphere.getContactPointByNormal {R Coord : Type} [Sub R] [Mul R]
    (getCPos : Coord → Vector3 R) (s : TSphere R Coord) (contactNormal : Vector3 R) :
    Option (Vector3 R) :=
  match s.center getCPos, s.r with
  | some c, some r => some (c.sub (contactNormal.mulScalar r))
  | _, _ => none

/-- The method `getContactPointWithSurfacePoint(surfacePoint)` of the generic
template: `return surfacePoint;`. -/
def TSphere.getContactPointWithSurfacePoint {R Coord : Type} (_s : TSphere R Coord)
    (surfacePoint : Vector3 R) : Vector3 R :=
  surfacePoint

/-- A sphere of radius 2 centred at the origin, alone in its model. -/
def originSphere : TSphere Int (Vector3 Int) :=
  { model := { positions := [{ x := 0, y := 0, z := 0 }], radius := [2], defaultRadius := 1 },
    index := 0 }

end Collision

namespace Flexible

/-! ## Lemmas on the loops -/

section Lemmas

variable {P Coord Deriv MatBlock Real : Type}

theorem fillBlockRows_closed (get : MaterialBlock P → MatBlock) :
    ∀ (ms : List (MaterialBlock P)) (i : Nat) (op : BlockSparse MatBlock),
      op.openRow = none →
      fillBlockRows get ms i op = { op with incoming := op.incoming ++ diagBlocks get ms i } := by
  intro ms
  induction ms with
  | nil => intro i op _; simp [fillBlockRows, diagBlocks]
  | cons m ms ih =>
    intro i op h
    rw [fillBlockRows, ih]
    · simp [BlockSparse.beginBlockRow, BlockSparse.createBlock, BlockSparse.endBlockRow,
        diagBlocks, h]
    · simp [BlockSparse.beginBlockRow, BlockSparse.createBlock, BlockSparse.endBlockRow]

theorem rebuild_eq_blockDiag (get : MaterialBlock P → MatBlock) (X : List Coord)
    (material : List (MaterialBlock P)) (op : BlockSparse MatBlock) :
    rebuild get X material op = blockDiag X.length get material := by
  unfold rebuild
  rw [fillBlockRows_closed get material 0 _ rfl]
  simp [BlockSparse.resizeBlocks, BlockSparse.compress, blockDiag]

theorem blocksAt_diagBlocks (get : MaterialBlock P → MatBlock) :
    ∀ (ms : List (MaterialBlock P)) (i r c : Nat),
      ((diagBlocks get ms i).filter (fun t => decide (t.1 = r) && decide (t.2.1 = c))).map
          (fun t => t.2.2)
        = if r = c ∧ i ≤ r then (ms[r - i]?).toList.map get else [] := by
  intro ms
  induction ms with
  | nil => intro i r c; simp [diagBlocks]
  | cons m ms ih =>
    intro i r c
    simp only [diagBlocks, List.filter_cons]
    by_cases hr : i = r
    · subst hr
      by_cases hc : i = c
      · subst hc
        simp [ih]
      · simp [ih, hc]
    · have hd : (decide (i = r) && decide (i = c)) = false := by simp [hr]
      rw [hd]
      simp only [Bool.false_eq_true, if_false, ih]
      by_cases h1 : r = c ∧ i + 1 ≤ r
      · have h2 : r = c ∧ i ≤ r := ⟨h1.1, by omega⟩
        have h3 : r - i = (r - (i + 1)) + 1 := by omega
        rw [if_pos h1, if_pos h2, h3, List.getElem?_cons_succ]
      · have h2 : ¬ (r = c ∧ i ≤ r) := fun h => h1 ⟨h.1, by omega⟩
        rw [if_neg h1, if_neg h2]

theorem addDForceLoop_spec (bt : BlockType P Coord Deriv MatBlock Real)
    (dx : List Deriv) (k b : Real) :
    ∀ (ms : List (MaterialBlock P)) (i : Nat) (df : List Deriv),
      i + ms.length ≤ df.length → i + ms.length ≤ dx.length →
      ∃ r, addDForceLoop bt ms i df dx k b = some r ∧ r.length = df.length ∧
        ∀ j, r[j]? =
          if i ≤ j ∧ j < i + ms.length then
            (ms[j - i]?).bind (fun m => (df[j]?).bind (fun d => (dx[j]?).map
              (fun y => bt.addDForce m d y k b)))
          else df[j]? := by
  intro ms
  induction ms with
  | nil =>
    intro i df _ _
    refine ⟨df, rfl, rfl, fun j => ?_⟩
    have : ¬ (i ≤ j ∧ j < i + ([] : List (MaterialBlock P)).length) := by
      simp only [List.length_nil]; omega
    rw [if_neg this]
  | cons m ms ih =>
    intro i df h1 h2
    simp only [List.length_cons] at h1 h2
    have hi1 : i < df.length := by omega
    have hi2 : i < dx.length := by omega
    obtain ⟨r, hr, hlen, hget⟩ := ih (i + 1) (df.set i (bt.addDForce m df[i] dx[i] k b))
      (by rw [List.length_set]; omega) (by omega)
    refine ⟨r, ?_, ?_, fun j => ?_⟩
    · simp only [addDForceLoop, List.getElem?_eq_getElem hi1, List.getElem?_eq_getElem hi2]
      exact hr
    · rw [hlen, List.length_set]
    · rw [hget j]
      rcases Nat.lt_trichotomy j i with hlt | heq | hgt
      · have c1 : ¬ (i + 1 ≤ j ∧ j < i + 1 + ms.length) := by omega
        have c2 : ¬ (i ≤ j ∧ j < i + (m :: ms).length) := by omega
        rw [if_neg c1, if_neg c2, List.getElem?_set_ne (by omega)]
      · subst heq
        have c1 : ¬ (j + 1 ≤ j ∧ j < j + 1 + ms.length) := by omega
        have c2 : j ≤ j ∧ j < j + (m :: ms).length := by
          simp only [List.length_cons]; omega
        rw [if_neg c1, if_pos c2, List.getElem?_set_self hi1]
        simp [List.getElem?_eq_getElem hi1, List.getElem?_eq_getElem hi2]
      · by_cases c1 : i + 1 ≤ j ∧ j < i + 1 + ms.length
        · have c2 : i ≤ j ∧ j < i + (m :: ms).length := by
            simp only [List.length_cons]; omega
          have h3 : j - i = (j - (i + 1)) + 1 := by omega
          rw [if_pos c1, if_pos c2, h3, List.getElem?_cons_succ,
            List.getElem?_set_ne (by omega)]
        · have c2 : ¬ (i ≤ j ∧ j < i + (m :: ms).length) := by
            simp only [List.length_cons]; omega
          rw [if_neg c1, if_neg c2, List.getElem?_set_ne (by omega)]

theorem addForceLoop_spec (bt : BlockType P Coord Deriv MatBlock Real)
    (x : List Coord) (v : List Deriv) :
    ∀ (ms : List (MaterialBlock P)) (i : Nat) (f : List Deriv),
      i + ms.length ≤ f.length → i + ms.length ≤ x.length → i + ms.length ≤ v.length →
      ∃ ms1 f1, addForceLoop bt ms i f x v = some (ms1, f1) ∧ f1.length = f.length ∧
        ms1.length = ms.length ∧
        (∀ j, f1[j]? =
          if i ≤ j ∧ j < i + ms.length then
            (ms[j - i]?).bind (fun m => (f[j]?).bind (fun a => (x[j]?).bind (fun y =>
              (v[j]?).map (fun w => (bt.addForce m a y w).2))))
          else f[j]?) ∧
        (∀ j, ms1[j]? =
            (ms[j]?).bind (fun m => (f[i + j]?).bind (fun a => (x[i + j]?).bind (fun y =>
              (v[i + j]?).map (fun w => (bt.addForce m a y w).1))))) := by
  intro ms
  induction ms with
  | nil =>
    intro i f _ _ _
    refine ⟨[], f, rfl, rfl, rfl, fun j => ?_, fun j => ?_⟩
    · have : ¬ (i ≤ j ∧ j < i + ([] : List (MaterialBlock P)).length) := by
        simp only [List.length_nil]; omega
      rw [if_neg this]
    · simp
  | cons m ms ih =>
    intro i f h1 h2 h3
    simp only [List.length_cons] at h1 h2 h3
    have hi1 : i < f.length := by omega
    have hi2 : i < x.length := by omega
    have hi3 : i < v.length := by omega
    obtain ⟨ms1, f1, hr, hlen, hmlen, hget, hmat⟩ :=
      ih (i + 1) (f.set i (bt.addForce m f[i] x[i] v[i]).2)
        (by rw [List.length_set]; omega) (by omega) (by omega)
    refine ⟨(bt.addForce m f[i] x[i] v[i]).1 :: ms1, f1, ?_, ?_, ?_, fun j => ?_, fun j => ?_⟩
    · simp only [addForceLoop, List.getElem?_eq_getElem hi1, List.getElem?_eq_getElem hi2,
        List.getElem?_eq_getElem hi3, hr]
    · rw [hlen, List.length_set]
    · simp only [List.length_cons, hmlen]
    · rw [hget j]
      rcases Nat.lt_trichotomy j i with hlt | heq | hgt
      · have c1 : ¬ (i + 1 ≤ j ∧ j < i + 1 + ms.length) := by omega
        have c2 : ¬ (i ≤ j ∧ j < i + (m :: ms).length) := by omega
        rw [if_neg c1, if_neg c2, List.getElem?_set_ne (by omega)]
      · subst heq
        have c1 : ¬ (j + 1 ≤ j ∧ j < j + 1 + ms.length) := by omega
        have c2 : j ≤ j ∧ j < j + (m :: ms).length := by
          simp only [List.length_cons]; omega
        rw [if_neg c1, if_pos c2, List.getElem?_set_self hi1]
        simp [List.getElem?_eq_getElem hi1, List.getElem?_eq_getElem hi2,
          List.getElem?_eq_getElem hi3]
      · by_cases c1 : i + 1 ≤ j ∧ j < i + 1 + ms.length
        · have c2 : i ≤ j ∧ j < i + (m :: ms).length := by
            simp only [List.length_cons]; omega
          have h4 : j - i = (j - (i + 1)) + 1 := by omega
          rw [if_pos c1, if_pos c2, h4, List.getElem?_cons_succ,
            List.getElem?_set_ne (by omega)]
        · have c2 : ¬ (i ≤ j ∧ j < i + (m :: ms).length) := by
            simp only [List.length_cons]; omega
          rw [if_neg c1, if_neg c2, List.getElem?_set_ne (by omega)]
    · cases j with
      | zero =>
        simp [List.getElem?_eq_getElem hi1, List.getElem?_eq_getElem hi2,
          List.getElem?_eq_getElem hi3]
      | succ j =>
        have h5 : i + (j + 1) = i + 1 + j := by omega
        rw [List.getElem?_cons_succ, List.getElem?_cons_succ, hmat j, h5]
        by_cases hj : j < ms.length
        · rw [List.getElem?_set_ne (by omega)]
        · simp [List.getElem?_eq_none (Nat.le_of_not_lt hj)]

theorem addMultBlocks_diag [Add Deriv] [SMul Real Deriv] (mulVec : MatBlock → Deriv → Deriv)
    (get : MaterialBlock P → MatBlock) (data : List Deriv) (fact : Real) :
    ∀ (ms : List (MaterialBlock P)) (i : Nat) (res : List Deriv),
      i + ms.length ≤ res.length → i + ms.length ≤ data.length →
      ∃ r, addMultBlocks mulVec (diagBlocks get ms i) res data fact = some r ∧
        r.length = res.length ∧
        ∀ j, r[j]? =
          if i ≤ j ∧ j < i + ms.length then
            (ms[j - i]?).bind (fun m => (res[j]?).bind (fun d => (data[j]?).map
              (fun y => d + fact • mulVec (get m) y)))
          else res[j]? := by
  intro ms
  induction ms with
  | nil =>
    intro i res _ _
    refine ⟨res, rfl, rfl, fun j => ?_⟩
    have : ¬ (i ≤ j ∧ j < i + ([] : List (MaterialBlock P)).length) := by
      simp only [List.length_nil]; omega
    rw [if_neg this]
  | cons m ms ih =>
    intro i res h1 h2
    simp only [List.length_cons] at h1 h2
    have hi1 : i < res.length := by omega
    have hi2 : i < data.length := by omega
    obtain ⟨r, hr, hlen, hget⟩ :=
      ih (i + 1) (res.set i (res[i] + fact • mulVec (get m) data[i]))
        (by rw [List.length_set]; omega) (by omega)
    refine ⟨r, ?_, ?_, fun j => ?_⟩
    · simp only [diagBlocks, addMultBlocks, List.getElem?_eq_getElem hi1,
        List.getElem?_eq_getElem hi2]
      exact hr
    · rw [hlen, List.length_set]
    · rw [hget j]
      rcases Nat.lt_trichotomy j i with hlt | heq | hgt
      · have c1 : ¬ (i + 1 ≤ j ∧ j < i + 1 + ms.length) := by omega
        have c2 : ¬ (i ≤ j ∧ j < i + (m :: ms).length) := by omega
        rw [if_neg c1, if_neg c2, List.getElem?_set_ne (by omega)]
      · subst heq
        have c1 : ¬ (j + 1 ≤ j ∧ j < j + 1 + ms.length) := by omega
        have c2 : j ≤ j ∧ j < j + (m :: ms).length := by
          simp only [List.length_cons]; omega
        rw [if_neg c1, if_pos c2, List.getElem?_set_self hi1]
        simp [List.getElem?_eq_getElem hi1, List.getElem?_eq_getElem hi2]
      · by_cases c1 : i + 1 ≤ j ∧ j < i + 1 + ms.length
        · have c2 : i ≤ j ∧ j < i + (m :: ms).length := by
            simp only [List.length_cons]; omega
          have h3 : j - i = (j - (i + 1)) + 1 := by omega
          rw [if_pos c1, if_pos c2, h3, List.getElem?_cons_succ,
            List.getElem?_set_ne (by omega)]
        · have c2 : ¬ (i ≤ j ∧ j < i + (m :: ms).length) := by
            simp only [List.length_cons]; omega
          rw [if_neg c1, if_neg c2, List.getElem?_set_ne (by omega)]

theorem blocksAt_blockDiag (n : Nat) (get : MaterialBlock P → MatBlock)
    (material : List (MaterialBlock P)) (r c : Nat) :
    (blockDiag n get material).blocksAt r c
      = if r = c then (material[r]?).toList.map get else [] := by
  unfold BlockSparse.blocksAt blockDiag
  simp only
  rw [blocksAt_diagBlocks get material 0 r c]
  simp

theorem blockDiag_blockDiagonalOf (n : Nat) (get : MaterialBlock P → MatBlock)
    (material : List (MaterialBlock P)) (hn : material.length = n) :
    BlockDiagonalOf (blockDiag n get material) n get material := by
  refine ⟨rfl, rfl, fun i hi => ?_, fun i j hij => ?_⟩
  · have hi2 : i < material.length := by omega
    refine ⟨material[i], List.getElem?_eq_getElem hi2, ?_⟩
    rw [blocksAt_blockDiag, if_pos rfl, List.getElem?_eq_getElem hi2]
    rfl
  · rw [blocksAt_blockDiag, if_neg hij]

/-- The method `addForce` on a stiffness engine with buffers long enough: the
loop succeeds, the rebuilds follow, and the force buffer is the one of the
loop. -/
theorem addForce_run (bt : BlockType P Coord Deriv MatBlock Real)
    (e : BaseMaterialForceField P Coord MatBlock) (f : List Deriv) (x : List Coord)
    (v : List Deriv) (hc : e.isCompliance = false)
    (hf : e.material.length ≤ f.length) (hx : e.material.length ≤ x.length)
    (hv : e.material.length ≤ v.length) :
    ∃ (ms1 : List (MaterialBlock P)) (f1 : List Deriv),
      addForceLoop bt e.material 0 f x v = some (ms1, f1) ∧
      addForce bt e f x v =
        some (if bt.constantK then { e with material := ms1 }
              else updateEnabled bt { e with material := ms1 }, f1) ∧
      f1.length = f.length ∧ ms1.length = e.material.length ∧
      (∀ j, f1[j]? =
          if j < e.material.length then
            (e.material[j]?).bind (fun m => (f[j]?).bind (fun a => (x[j]?).bind (fun y =>
              (v[j]?).map (fun w => (bt.addForce m a y w).2))))
          else f[j]?) ∧
      (∀ j : Nat, ms1[j]? =
            (e.material[j]?).bind (fun m => (f[j]?).bind (fun a => (x[j]?).bind (fun y =>
              (v[j]?).map (fun w => (bt.addForce m a y w).1))))) := by
  obtain ⟨ms1, f1, hr, hlen, hmlen, hget, hmat⟩ :=
    addForceLoop_spec bt x v e.material 0 f (by omega) (by omega) (by omega)
  refine ⟨ms1, f1, hr, ?_, hlen, hmlen, fun j => ?_, fun j => ?_⟩
  · unfold addForce
    rw [hc, hr]
    cases bt.constantK <;> simp
  · have := hget j
    simpa using this
  · have := hmat j
    simpa using this

theorem updateC_bound (bt : BlockType P Coord Deriv MatBlock Real)
    (e : BaseMaterialForceField P Coord MatBlock) (X : List Coord) (hX : e.mstate = some X) :
    updateC bt e = { e with C := blockDiag X.length bt.getC e.material } := by
  simp only [updateC, hX, rebuild_eq_blockDiag]

theorem updateK_bound (bt : BlockType P Coord Deriv MatBlock Real)
    (e : BaseMaterialForceField P Coord MatBlock) (X : List Coord) (hX : e.mstate = some X) :
    updateK bt e = { e with K := blockDiag X.length bt.getK e.material } := by
  simp only [updateK, hX, rebuild_eq_blockDiag]

theorem updateB_bound (bt : BlockType P Coord Deriv MatBlock Real)
    (e : BaseMaterialForceField P Coord MatBlock) (X : List Coord) (hX : e.mstate = some X) :
    updateB bt e = { e with B := blockDiag X.length bt.getB e.material } := by
  simp only [updateB, hX, rebuild_eq_blockDiag]

theorem updateC_unbound (bt : BlockType P Coord Deriv MatBlock Real)
    (e : BaseMaterialForceField P Coord MatBlock) (hX : e.mstate = none) :
    updateC bt e = e := by
  simp only [updateC, hX]

theorem updateK_unbound (bt : BlockType P Coord Deriv MatBlock Real)
    (e : BaseMaterialForceField P Coord MatBlock) (hX : e.mstate = none) :
    updateK bt e = e := by
  simp only [updateK, hX]

theorem updateB_unbound (bt : BlockType P Coord Deriv MatBlock Real)
    (e : BaseMaterialForceField P Coord MatBlock) (hX : e.mstate = none) :
    updateB bt e = e := by
  simp only [updateB, hX]

theorem blockDiag_nil (get : MaterialBlock P → MatBlock) :
    blockDiag 0 get ([] : List (MaterialBlock P)) = BlockSparse.empty := rfl

/-- The guarded rebuilds on a coherent engine: every operator whose flag is set
becomes the block-diagonal assembly of the material blocks over the elements of
the motion state, the rest of the engine is untouched. -/
theorem updateEnabled_coherent (bt : BlockType P Coord Deriv MatBlock Real)
    (e : BaseMaterialForceField P Coord MatBlock) (h : Coherent e) :
    updateEnabled bt e =
      { e with
        C := if e.assembleC then blockDiag (stateSize e.mstate) bt.getC e.material else e.C
        K := if e.assembleK then blockDiag (stateSize e.mstate) bt.getK e.material else e.K
        B := if e.assembleB then blockDiag (stateSize e.mstate) bt.getB e.material else e.B } := by
  cases e with
  | mk ms mat fc c fk kk fb bb ic =>
    cases ms with
    | none =>
      obtain ⟨hm, hC, hK, hB⟩ := h rfl
      simp only at hm hC hK hB
      subst hm hC hK hB
      cases fc <;> cases fk <;> cases fb <;>
        simp [updateEnabled, updateC, updateK, updateB, stateSize, blockDiag_nil]
    | some X =>
      cases fc <;> cases fk <;> cases fb <;>
        simp [updateEnabled, updateC, updateK, updateB, stateSize, rebuild_eq_blockDiag]

theorem addDForceLoop_short (bt : BlockType P Coord Deriv MatBlock Real)
    (dx : List Deriv) (k b : Real) :
    ∀ (ms : List (MaterialBlock P)) (i : Nat) (df : List Deriv),
      i ≤ df.length → i ≤ dx.length →
      (df.length < i + ms.length ∨ dx.length < i + ms.length) →
      addDForceLoop bt ms i df dx k b = none := by
  intro ms
  induction ms with
  | nil => intro i df h1 h2 h; simp only [List.length_nil] at h; omega
  | cons m ms ih =>
    intro i df _ _ h
    simp only [List.length_cons] at h
    by_cases hi1 : i < df.length
    · by_cases hi2 : i < dx.length
      · simp only [addDForceLoop, List.getElem?_eq_getElem hi1, List.getElem?_eq_getElem hi2]
        apply ih
        · rw [List.length_set]; omega
        · omega
        · rw [List.length_set]; omega
      · simp [addDForceLoop, List.getElem?_eq_none (Nat.le_of_not_lt hi2)]
    · simp [addDForceLoop, List.getElem?_eq_none (Nat.le_of_not_lt hi1)]

theorem addMultBlocks_diag_short [Add Deriv] [SMul Real Deriv]
    (mulVec : MatBlock → Deriv → Deriv) (get : MaterialBlock P → MatBlock)
    (data : List Deriv) (fact : Real) :
    ∀ (ms : List (MaterialBlock P)) (i : Nat) (res : List Deriv),
      i ≤ res.length → i ≤ data.length →
      (res.length < i + ms.length ∨ data.length < i + ms.length) →
      addMultBlocks mulVec (diagBlocks get ms i) res data fact = none := by
  intro ms
  induction ms with
  | nil => intro i res h1 h2 h; simp only [List.length_nil] at h; omega
  | cons m ms ih =>
    intro i res _ _ h
    simp only [List.length_cons] at h
    by_cases hi1 : i < res.length
    · by_cases hi2 : i < data.length
      · simp only [diagBlocks, addMultBlocks, List.getElem?_eq_getElem hi1,
          List.getElem?_eq_getElem hi2]
        apply ih
        · rw [List.length_set]; omega
        · omega
        · rw [List.length_set]; omega
      · simp [diagBlocks, addMultBlocks, List.getElem?_eq_none (Nat.le_of_not_lt hi2)]
    · simp [diagBlocks, addMultBlocks, List.getElem?_eq_none (Nat.le_of_not_lt hi1)]

theorem resizeMaterial_length (fresh : MaterialBlock P) (material : List (MaterialBlock P))
    (n : Nat) : (resizeMaterial fresh material n).length = n := by
  simp only [resizeMaterial, List.length_append, List.length_take, List.length_replicate]
  omega

theorem bindVolumes_spec {W : Type} (weights : List W) :
    ∀ (ms : List (MaterialBlock P)) (i : Nat), i + ms.length ≤ weights.length →
      ∃ r, bindVolumes weights ms i = some r ∧ r.length = ms.length ∧
        ∀ j : Nat, r[j]? = (ms[j]?).map (fun m => { m with volume := some (i + j) }) := by
  intro ms
  induction ms with
  | nil => intro i _; exact ⟨[], rfl, rfl, fun j => by simp⟩
  | cons m ms ih =>
    intro i h
    simp only [List.length_cons] at h
    obtain ⟨r, hr, hlen, hget⟩ := ih (i + 1) (by omega)
    refine ⟨{ m with volume := some i } :: r, ?_, ?_, fun j => ?_⟩
    · have hi : i < weights.length := by omega
      simp only [bindVolumes, hi, if_true, hr]
    · simp only [List.length_cons, hlen]
    · cases j with
      | zero => simp
      | succ j =>
        have h5 : i + (j + 1) = i + 1 + j := by omega
        rw [List.getElem?_cons_succ, List.getElem?_cons_succ, hget j, h5]

theorem reinit_preserves (bt : BlockType P Coord Deriv MatBlock Real)
    (e : BaseMaterialForceField P Coord MatBlock) :
    (reinit bt e).material = e.material ∧ (reinit bt e).mstate = e.mstate := by
  cases e with
  | mk ms mat fc c fk kk fb bb ic =>
    cases ms with
    | none =>
      cases fc <;> cases fk <;> cases fb <;>
        simp [reinit, updateEnabled, updateC, updateK, updateB]
    | some X =>
      cases fc <;> cases fk <;> cases fb <;>
        simp [reinit, updateEnabled, updateC, updateK, updateB]

/-- The method `init` once a motion state `X` is bound or found. -/
theorem init_bound {W : Type} (bt : BlockType P Coord Deriv MatBlock Real)
    (e : BaseMaterialForceField P Coord MatBlock) (ctxState : Option (List Coord))
    (sampler : Option (List W)) (X : List Coord)
    (hX : e.mstate = some X ∨ (e.mstate = none ∧ ctxState = some X)) :
    init bt ctxState sampler e =
      match sampler with
      | none =>
        some (reinit bt { e with
          mstate := some X
          material := (resizeMaterial bt.fresh e.material X.length).map
            (fun m => { m with volume := none }) })
      | some weights =>
        match bindVolumes weights (resizeMaterial bt.fresh e.material X.length) 0 with
        | some weighted => some (reinit bt { e with mstate := some X, material := weighted })
        | none => none := by
  rcases hX with h | ⟨h1, h2⟩
  · simp only [init, h]
  · simp only [init, h1, h2]

/-! Coherence holds of a constructed engine and is kept by every method. -/

theorem coherent_construct (mm : Option (List Coord)) :
    Coherent (construct mm : BaseMaterialForceField P Coord MatBlock) :=
  fun _ => ⟨rfl, rfl, rfl, rfl⟩

theorem coherent_of_bound (e : BaseMaterialForceField P Coord MatBlock) (X : List Coord)
    (hX : e.mstate = some X) : Coherent e := by
  intro h
  rw [hX] at h
  cases h

theorem coherent_updateC (bt : BlockType P Coord Deriv MatBlock Real)
    (e : BaseMaterialForceField P Coord MatBlock) (h : Coherent e) :
    Coherent (updateC bt e) := by
  cases hX : e.mstate with
  | none => rw [updateC_unbound bt e hX]; exact h
  | some X => rw [updateC_bound bt e X hX]; exact coherent_of_bound _ X hX

theorem coherent_updateK (bt : BlockType P Coord Deriv MatBlock Real)
    (e : BaseMaterialForceField P Coord MatBlock) (h : Coherent e) :
    Coherent (updateK bt e) := by
  cases hX : e.mstate with
  | none => rw [updateK_unbound bt e hX]; exact h
  | some X => rw [updateK_bound bt e X hX]; exact coherent_of_bound _ X hX

theorem coherent_updateB (bt : BlockType P Coord Deriv MatBlock Real)
    (e : BaseMaterialForceField P Coord MatBlock) (h : Coherent e) :
    Coherent (updateB bt e) := by
  cases hX : e.mstate with
  | none => rw [updateB_unbound bt e hX]; exact h
  | some X => rw [updateB_bound bt e X hX]; exact coherent_of_bound _ X hX

theorem coherent_reinit (bt : BlockType P Coord Deriv MatBlock Real)
    (e : BaseMaterialForceField P Coord MatBlock) (h : Coherent e) :
    Coherent (reinit bt e) := by
  rw [reinit, updateEnabled_coherent bt e h]
  intro hX
  simp only at hX
  obtain ⟨hm, hC, hK, hB⟩ := h hX
  simp only [hX, hm, hC, hK, hB, stateSize, blockDiag_nil, ite_self, and_self]

theorem coherent_init {W : Type} (bt : BlockType P Coord Deriv MatBlock Real)
    (ctxState : Option (List Coord)) (sampler : Option (List W))
    (e e1 : BaseMaterialForceField P Coord MatBlock) (h : Coherent e)
    (hrun : init bt ctxState sampler e = some e1) : Coherent e1 := by
  have hb : (∃ X, e.mstate = some X ∨ (e.mstate = none ∧ ctxState = some X)) ∨
      (e.mstate = none ∧ ctxState = none) := by
    cases h1 : e.mstate with
    | some X => exact Or.inl ⟨X, Or.inl rfl⟩
    | none =>
      cases h2 : ctxState with
      | some X => exact Or.inl ⟨X, Or.inr ⟨rfl, rfl⟩⟩
      | none => exact Or.inr ⟨rfl, rfl⟩
  rcases hb with ⟨X, hX⟩ | ⟨h1, h2⟩
  · rw [init_bound bt e ctxState sampler X hX] at hrun
    cases sampler with
    | none =>
      simp only [Option.some.injEq] at hrun
      rw [← hrun]
      exact coherent_of_bound _ X (by rw [(reinit_preserves bt _).2])
    | some weights =>
      simp only at hrun
      cases hbv : bindVolumes weights (resizeMaterial bt.fresh e.material X.length) 0 with
      | none => rw [hbv] at hrun; cases hrun
      | some ms =>
        rw [hbv] at hrun
        simp only [Option.some.injEq] at hrun
        rw [← hrun]
        exact coherent_of_bound _ X (by rw [(reinit_preserves bt _).2])
  · simp only [init, h1, h2, Option.some.injEq] at hrun
    rw [← hrun]
    exact h

theorem coherent_addForce (bt : BlockType P Coord Deriv MatBlock Real)
    (e e1 : BaseMaterialForceField P Coord MatBlock) (f f1 : List Deriv) (x : List Coord)
    (v : List Deriv) (h : Coherent e) (hrun : addForce bt e f x v = some (e1, f1)) :
    Coherent e1 := by
  unfold addForce at hrun
  cases hc : e.isCompliance with
  | true =>
    simp only [hc, if_true, Option.some.injEq, Prod.mk.injEq] at hrun
    rw [← hrun.1]; exact h
  | false =>
    simp only [hc, Bool.false_eq_true, if_false] at hrun
    cases hl : addForceLoop bt e.material 0 f x v with
    | none => rw [hl] at hrun; cases hrun
    | some r =>
      obtain ⟨ms1, f2⟩ := r
      rw [hl] at hrun
      have hco : Coherent { e with material := ms1 } := by
        intro hX
        obtain ⟨hm, hC, hK, hB⟩ := h hX
        refine ⟨?_, hC, hK, hB⟩
        rw [hm] at hl
        simp only [addForceLoop, Option.some.injEq, Prod.mk.injEq] at hl
        exact hl.1.symm
      cases hk : bt.constantK with
      | true =>
        simp only [hk, Bool.not_true, Bool.false_eq_true, if_false, Option.some.injEq,
          Prod.mk.injEq] at hrun
        rw [← hrun.1]; exact hco
      | false =>
        simp only [hk, Bool.not_false, if_true, Option.some.injEq, Prod.mk.injEq] at hrun
        rw [← hrun.1]; exact coherent_reinit bt _ hco

theorem coherent_accessors (bt : BlockType P Coord Deriv MatBlock Real)
    (e : BaseMaterialForceField P Coord MatBlock) (h : Coherent e) :
    Coherent (getComplianceMatrix bt e).1 ∧ Coherent (getStiffnessMatrix bt e).1 ∧
      Coherent (getB bt e).1 := by
  refine ⟨?_, ?_, ?_⟩
  · unfold getComplianceMatrix
    split
    · exact h
    · simp only
      split
      · exact coherent_updateC bt e h
      · exact h
  · unfold getStiffnessMatrix
    split
    · exact h
    · simp only
      split
      · exact coherent_updateK bt e h
      · exact h
  · unfold getB
    simp only
    split
    · exact coherent_updateB bt e h
    · exact h

/-- The assembled branch of `addDForce` when the stored operators are the
block-diagonal assemblies of the material blocks: the call succeeds and acts
entry by entry. -/
theorem addDForce_assembled_diag [Add Deriv] [SMul Real Deriv]
    (mulVec : MatBlock → Deriv → Deriv) (bt : BlockType P Coord Deriv MatBlock Real)
    (e : BaseMaterialForceField P Coord MatBlock) (df dx : List Deriv) (k b : Real)
    (nK nB : Nat) (hc : e.isCompliance = false) (hk : e.assembleK = true)
    (hK : e.K = blockDiag nK bt.getK e.material)
    (hB : e.assembleB = true → e.B = blockDiag nB bt.getB e.material)
    (h1 : e.material.length ≤ df.length) (h2 : e.material.length ≤ dx.length) :
    ∃ r : List Deriv, addDForce mulVec bt e df dx k b = some r ∧ r.length = df.length ∧
      ∀ j : Nat, r[j]? =
        if j < e.material.length then
          (e.material[j]?).bind (fun m => (df[j]?).bind (fun d => (dx[j]?).map (fun y =>
            if e.assembleB then d + k • mulVec (bt.getK m) y + b • mulVec (bt.getB m) y
            else d + k • mulVec (bt.getK m) y)))
        else df[j]? := by
  obtain ⟨r1, hr1, hlen1, hget1⟩ :=
    addMultBlocks_diag mulVec bt.getK dx k e.material 0 df (by omega) (by omega)
  have hrun1 : e.K.addMult mulVec df dx k = some r1 := by
    rw [hK]; exact hr1
  cases hb : e.assembleB with
  | false =>
    refine ⟨r1, ?_, hlen1, fun j => ?_⟩
    · simp [addDForce, hc, hk, hrun1, hb]
    · rw [hget1 j]
      simp
  | true =>
    obtain ⟨r2, hr2, hlen2, hget2⟩ :=
      addMultBlocks_diag mulVec bt.getB dx b e.material 0 r1 (by omega) (by omega)
    have hrun2 : e.B.addMult mulVec r1 dx b = some r2 := by
      rw [hB hb]; exact hr2
    refine ⟨r2, ?_, by rw [hlen2, hlen1], fun j => ?_⟩
    · simp [addDForce, hc, hk, hrun1, hb, hrun2]
    · rw [hget2 j, hget1 j]
      by_cases hj : j < e.material.length
      · have c : 0 ≤ j ∧ j < 0 + e.material.length := by omega
        rw [if_pos c, if_pos c, if_pos hj]
        simp [List.getElem?_eq_getElem hj, List.getElem?_eq_getElem (Nat.lt_of_lt_of_le hj h1),
          List.getElem?_eq_getElem (Nat.lt_of_lt_of_le hj h2)]
      · have c : ¬ (0 ≤ j ∧ j < 0 + e.material.length) := by omega
        rw [if_neg c, if_neg c, if_neg hj]

/-- The two paths of `addDForce` on a coherent stiffness engine, for a material
whose linearized force law agrees with its own stiffness and damping blocks. -/
theorem addDForce_paths_stiffness [AddMonoid Deriv] [SMul Real Deriv]
    (mulVec : MatBlock → Deriv → Deriv) (bt : BlockType P Coord Deriv MatBlock Real)
    (e : BaseMaterialForceField P Coord MatBlock) (df dx : List Deriv) (k b : Real)
    (hlaw : ∀ (m : MaterialBlock P) (d y : Deriv) (k b : Real),
      bt.addDForce m d y k b = d + k • mulVec (bt.getK m) y + b • mulVec (bt.getB m) y)
    (hcoh : Coherent e) (hc : e.isCompliance = false)
    (hdamp : e.assembleB = true ∨
      ∀ (i : Nat) m y, e.material[i]? = some m → dx[i]? = some y →
        b • mulVec (bt.getB m) y = 0) :
    addDForce mulVec bt (reinit bt { e with assembleK := true }) df dx k b
        = addDForce mulVec bt { e with assembleK := false } df dx k b ∧
    (e.material.length ≤ df.length → e.material.length ≤ dx.length →
      ∃ r : List Deriv,
        addDForce mulVec bt { e with assembleK := false } df dx k b = some r ∧
        r.length = df.length) := by
  have hcoh1 : Coherent { e with assembleK := true } := hcoh
  have hre := updateEnabled_coherent bt { e with assembleK := true } hcoh1
  have hfree : addDForce mulVec bt { e with assembleK := false } df dx k b
      = addDForceLoop bt e.material 0 df dx k b := by
    simp [addDForce, hc]
  by_cases hlen : e.material.length ≤ df.length ∧ e.material.length ≤ dx.length
  · obtain ⟨h1, h2⟩ := hlen
    obtain ⟨r1, hr1, hlen1, hget1⟩ :=
      addDForce_assembled_diag mulVec bt (reinit bt { e with assembleK := true }) df dx k b
        (stateSize e.mstate) (stateSize e.mstate)
        (by rw [reinit, hre]; exact hc) (by rw [reinit, hre])
        (by rw [reinit, hre]; simp) (by rw [reinit, hre]; intro hb; simp only at hb; simp [hb])
        (by rw [reinit, hre]; exact h1) (by rw [reinit, hre]; exact h2)
    obtain ⟨r2, hr2, hlen2, hget2⟩ :=
      addDForceLoop_spec bt dx k b e.material 0 df (by omega) (by omega)
    have hmat : (reinit bt { e with assembleK := true }).material = e.material := by
      rw [reinit, hre]
    have hfb : (reinit bt { e with assembleK := true }).assembleB = e.assembleB := by
      rw [reinit, hre]
    rw [hmat, hfb] at hget1
    have heq : r1 = r2 := by
      apply List.ext_getElem?
      intro j
      rw [hget1 j, hget2 j]
      by_cases hj : j < e.material.length
      · have c : 0 ≤ j ∧ j < 0 + e.material.length := by omega
        rw [if_pos hj, if_pos c]
        have hjd : j < df.length := Nat.lt_of_lt_of_le hj h1
        have hjx : j < dx.length := Nat.lt_of_lt_of_le hj h2
        have hm : e.material[j]? = some e.material[j] := List.getElem?_eq_getElem hj
        have hd : df[j]? = some df[j] := List.getElem?_eq_getElem hjd
        have hy : dx[j]? = some dx[j] := List.getElem?_eq_getElem hjx
        simp only [Nat.sub_zero, hm, hd, hy, Option.some_bind, Option.map_some', hlaw]
        rcases hdamp with hb | hz
        · rw [if_pos hb]
        · rw [hz j _ _ hm hy, add_zero]
          split <;> rfl
      · have c : ¬ (0 ≤ j ∧ j < 0 + e.material.length) := by omega
        rw [if_neg hj, if_neg c]
    refine ⟨?_, fun _ _ => ⟨r2, ?_, hlen2⟩⟩
    · rw [hr1, hfree, hr2, heq]
    · rw [hfree, hr2]
  · refine ⟨?_, fun h1 h2 => absurd ⟨h1, h2⟩ hlen⟩
    have hshort : df.length < 0 + e.material.length ∨ dx.length < 0 + e.material.length := by
      omega
    rw [hfree, addDForceLoop_short bt dx k b e.material 0 df (by omega) (by omega) hshort]
    have hK : (reinit bt { e with assembleK := true }).K.addMult mulVec df dx k = none := by
      rw [reinit, hre]
      simp only [BlockSparse.addMult, if_true, blockDiag]
      exact addMultBlocks_diag_short mulVec bt.getK dx k e.material 0 df (by omega) (by omega)
        hshort
    have hc1 : (reinit bt { e with assembleK := true }).isCompliance = false := by
      rw [reinit, hre]; exact hc
    have hk1 : (reinit bt { e with assembleK := true }).assembleK = true := by
      rw [reinit, hre]
    simp [addDForce, hc1, hk1, hK]

end Lemmas

/-! ## The force law, element by element -/

section Claims

variable {P Coord Deriv MatBlock Real : Type}

/-- C1. `addForce` on a stiffness engine (is-compliance false), with a material
array of length `n` and force, position and velocity buffers of length at least
`n`: the call succeeds, the resulting force buffer has the length of the input,
its entry `i < n` is the result of the force law of material block `i` applied
to the input force, position and velocity entries `i`, every entry at an index
`≥ n` is unchanged, and the entry `i` of the result is the same for any other
buffers that agree with these at index `i`. -/
theorem addForce_elementwise (bt : BlockType P Coord Deriv MatBlock Real)
    (e : BaseMaterialForceField P Coord MatBlock) (f : List Deriv) (x : List Coord)
    (v : List Deriv) (hc : e.isCompliance = false)
    (hf : e.material.length ≤ f.length) (hx : e.material.length ≤ x.length)
    (hv : e.material.length ≤ v.length) :
    ∃ (e1 : BaseMaterialForceField P Coord MatBlock) (f1 : List Deriv),
      addForce bt e f x v = some (e1, f1) ∧ f1.length = f.length ∧
      (∀ (i : Nat) m a y w, e.material[i]? = some m → f[i]? = some a → x[i]? = some y →
        v[i]? = some w → f1[i]? = some (bt.addForce m a y w).2) ∧
      (∀ i, e.material.length ≤ i → f1[i]? = f[i]?) ∧
      (∀ (f2 : List Deriv) (x2 : List Coord) (v2 : List Deriv),
        e.material.length ≤ f2.length → e.material.length ≤ x2.length →
        e.material.length ≤ v2.length →
        ∃ (e2 : BaseMaterialForceField P Coord MatBlock) (g : List Deriv),
          addForce bt e f2 x2 v2 = some (e2, g) ∧
          ∀ i, i < e.material.length → f2[i]? = f[i]? → x2[i]? = x[i]? → v2[i]? = v[i]? →
            g[i]? = f1[i]?) := by
  obtain ⟨ms1, f1, _, hrun, hlen, _, hget, _⟩ := addForce_run bt e f x v hc hf hx hv
  refine ⟨_, f1, hrun, hlen, ?_, ?_, ?_⟩
  · intro i m a y w hm ha hy hw
    have hi : i < e.material.length := by
      rcases Nat.lt_or_ge i e.material.length with h | h
      · exact h
      · rw [List.getElem?_eq_none h] at hm; cases hm
    rw [hget i, if_pos hi, hm, ha, hy, hw]; rfl
  · intro i hi
    rw [hget i, if_neg (by omega)]
  · intro f2 x2 v2 hf2 hx2 hv2
    obtain ⟨ms2, g, _, hrun2, _, _, hget2, _⟩ := addForce_run bt e f2 x2 v2 hc hf2 hx2 hv2
    refine ⟨_, g, hrun2, ?_⟩
    intro i hi h1 h2 h3
    rw [hget i, hget2 i, if_pos hi, if_pos hi, h1, h2, h3]

/-- A run of C1: two springs, buffers of three entries; the third entry is
beyond the material array. -/
theorem addForce_elementwise_witness :
    ∃ (e1 : BaseMaterialForceField (Int × Int) Int Int) (f1 : List Int),
      addForce (springBlock false) (springEngine false false false false)
        [10, 20, 30] [1, 2, 3] [1, 1, 1] = some (e1, f1) ∧
      f1.length = [(10 : Int), 20, 30].length ∧
      (∀ (i : Nat) m a y w, (springEngine false false false false).material[i]? = some m →
        [(10 : Int), 20, 30][i]? = some a → [(1 : Int), 2, 3][i]? = some y →
        [(1 : Int), 1, 1][i]? = some w → f1[i]? = some ((springBlock false).addForce m a y w).2) ∧
      (∀ i, (springEngine false false false false).material.length ≤ i →
        f1[i]? = [(10 : Int), 20, 30][i]?) ∧
      (∀ (f2 : List Int) (x2 : List Int) (v2 : List Int),
        (springEngine false false false false).material.length ≤ f2.length →
        (springEngine false false false false).material.length ≤ x2.length →
        (springEngine false false false false).material.length ≤ v2.length →
        ∃ (e2 : BaseMaterialForceField (Int × Int) Int Int) (g : List Int),
          addForce (springBlock false) (springEngine false false false false) f2 x2 v2
            = some (e2, g) ∧
          ∀ i, i < (springEngine false false false false).material.length →
            f2[i]? = [(10 : Int), 20, 30][i]? → x2[i]? = [(1 : Int), 2, 3][i]? →
            v2[i]? = [(1 : Int), 1, 1][i]? → g[i]? = f1[i]?) :=
  addForce_elementwise (springBlock false) (springEngine false false false false)
    [10, 20, 30] [1, 2, 3] [1, 1, 1] rfl (by decide) (by decide) (by decide)

/-! ## Compliance and stiffness roles -/

/-- C2. Compliance/stiffness exclusivity, for every engine state: when
is-compliance is true, `addForce` and `addDForce` return the force buffer (and
the engine) unchanged whatever the buffers, the material array and the assemble
flags are, and `getStiffnessMatrix` returns absent; when it is false,
`getComplianceMatrix` returns absent; `getComplianceMatrix` returns an operator
when is-compliance is true, `getStiffnessMatrix` returns one when it is false,
so exactly one of the two accessors returns an operator. -/
theorem compliance_stiffness_exclusive [Add Deriv] [SMul Real Deriv]
    (mulVec : MatBlock → Deriv → Deriv) (bt : BlockType P Coord Deriv MatBlock Real)
    (e : BaseMaterialForceField P Coord MatBlock) :
    (e.isCompliance = true →
      (∀ (f : List Deriv) (x : List Coord) (v : List Deriv), addForce bt e f x v = some (e, f)) ∧
      (∀ (df dx : List Deriv) (k b : Real), addDForce mulVec bt e df dx k b = some df) ∧
      getStiffnessMatrix bt e = (e, none)) ∧
    (e.isCompliance = false → getComplianceMatrix bt e = (e, none)) ∧
    (e.isCompliance = true → ∃ op, (getComplianceMatrix bt e).2 = some op) ∧
    (e.isCompliance = false → ∃ op, (getStiffnessMatrix bt e).2 = some op) ∧
    ((getComplianceMatrix bt e).2.isSome = !(getStiffnessMatrix bt e).2.isSome) := by
  refine ⟨fun h => ⟨fun f x v => ?_, fun df dx k b => ?_, ?_⟩, fun h => ?_, fun h => ?_,
    fun h => ?_, ?_⟩
  · simp [addForce, h]
  · simp [addDForce, h]
  · simp [getStiffnessMatrix, h]
  · simp [getComplianceMatrix, h]
  · simp [getComplianceMatrix, h]
  · simp [getStiffnessMatrix, h]
  · cases h : e.isCompliance <;> simp [getComplianceMatrix, getStiffnessMatrix, h]

/-- A run of C2: a compliance engine with every assemble flag set leaves the
buffers alone, even buffers shorter than the material array. -/
theorem compliance_stiffness_exclusive_witness :
    (∀ (f : List Int) (x : List Int) (v : List Int),
      addForce (springBlock true) (springEngine true true true true) f x v
        = some (springEngine true true true true, f)) ∧
    (∀ (df dx : List Int) (k b : Int),
      addDForce (fun (m : Int) (d : Int) => m * d) (springBlock true)
        (springEngine true true true true) df dx k b = some df) ∧
    getStiffnessMatrix (springBlock true) (springEngine true true true true)
      = (springEngine true true true true, none) :=
  (compliance_stiffness_exclusive (fun (m : Int) (d : Int) => m * d) (springBlock true)
    (springEngine true true true true)).1 rfl

/-! ## The rebuild of an operator -/

/-- C3. The rebuilds `updateK`, `updateC` and `updateB` are strictly
block-diagonal: on an engine bound to a motion state of `n` elements whose
material array has length `n`, the rebuilt operator has `n × n` blocks, its
content at `(i, i)` is exactly the output of the matching accessor (`getK`,
`getC`, `getB`) on material block `i` for every `i < n`, it holds no block at
any `(i, j)` with `i ≠ j`, and it is the same whatever the operator held before
the rebuild. -/
theorem update_block_diagonal (bt : BlockType P Coord Deriv MatBlock Real)
    (e : BaseMaterialForceField P Coord MatBlock) (X : List Coord)
    (hX : e.mstate = some X) (hn : e.material.length = X.length) :
    (BlockDiagonalOf (updateK bt e).K X.length bt.getK e.material ∧
      ∀ op, (updateK bt { e with K := op }).K = (updateK bt e).K) ∧
    (BlockDiagonalOf (updateC bt e).C X.length bt.getC e.material ∧
      ∀ op, (updateC bt { e with C := op }).C = (updateC bt e).C) ∧
    (BlockDiagonalOf (updateB bt e).B X.length bt.getB e.material ∧
      ∀ op, (updateB bt { e with B := op }).B = (updateB bt e).B) := by
  refine ⟨⟨?_, fun op => ?_⟩, ⟨?_, fun op => ?_⟩, ⟨?_, fun op => ?_⟩⟩
  · simp only [updateK, hX, rebuild_eq_blockDiag]
    exact blockDiag_blockDiagonalOf X.length bt.getK e.material hn
  · simp only [updateK, hX, rebuild_eq_blockDiag]
  · simp only [updateC, hX, rebuild_eq_blockDiag]
    exact blockDiag_blockDiagonalOf X.length bt.getC e.material hn
  · simp only [updateC, hX, rebuild_eq_blockDiag]
  · simp only [updateB, hX, rebuild_eq_blockDiag]
    exact blockDiag_blockDiagonalOf X.length bt.getB e.material hn
  · simp only [updateB, hX, rebuild_eq_blockDiag]

/-- A run of C3: the stiffness operator of two springs, rebuilt from an empty
operator, is the 2 × 2 operator with the blocks -2 and -3 on its diagonal. -/
theorem update_block_diagonal_witness :
    (updateK (springBlock false) (springEngine false false false false)).K
        = { nbBlockRows := 2, nbBlockCols := 2, blocks := [(0, 0, -2), (1, 1, -3)],
            incoming := [], openRow := none } ∧
      BlockDiagonalOf (updateK (springBlock false) (springEngine false false false false)).K 2
        (springBlock false).getK twoSprings :=
  ⟨by decide,
    (update_block_diagonal (springBlock false) (springEngine false false false false)
      [0, 0] rfl rfl).1.1⟩

/-! ## The linearized force on the assembled path -/

/-- C4. `addDForce` on the assembled path (is-compliance false,
assemble-stiffness set), for every position delta, force delta and pair of
factors: the result is the multiply-accumulate of the stored `K` with factor
`k`, followed by the multiply-accumulate of the stored `B` with factor `b` if and
only if assemble-damping is set; the linearized force law of the material
blocks plays no part in it; and with `K` and `B` as built by the rebuilds on a
bound engine and buffers covering the material array, the call succeeds, entry
`i` of the result is `df[i] + k * K_i * dx[i]`, plus `b * B_i * dx[i]` when
assemble-damping is set, and the entries beyond the material array are
unchanged. -/
theorem addDForce_assembled [Add Deriv] [SMul Real Deriv]
    (mulVec : MatBlock → Deriv → Deriv) (bt : BlockType P Coord Deriv MatBlock Real)
    (e : BaseMaterialForceField P Coord MatBlock) (df dx : List Deriv) (k b : Real)
    (hc : e.isCompliance = false) (hk : e.assembleK = true) :
    (addDForce mulVec bt e df dx k b =
      (e.K.addMult mulVec df dx k).bind (fun r =>
        if e.assembleB then e.B.addMult mulVec r dx b else some r)) ∧
    (∀ g : MaterialBlock P → Deriv → Deriv → Real → Real → Deriv,
      addDForce mulVec { bt with addDForce := g } e df dx k b
        = addDForce mulVec bt e df dx k b) ∧
    (∀ X : List Coord, e.mstate = some X →
      e.material.length ≤ df.length → e.material.length ≤ dx.length →
      ∃ r : List Deriv,
        addDForce mulVec bt (updateB bt (updateK bt e)) df dx k b = some r ∧
        r.length = df.length ∧
        (∀ (i : Nat) m d y, e.material[i]? = some m → df[i]? = some d → dx[i]? = some y →
          r[i]? = some (if e.assembleB then
              d + k • mulVec (bt.getK m) y + b • mulVec (bt.getB m) y
            else d + k • mulVec (bt.getK m) y)) ∧
        (∀ i : Nat, e.material.length ≤ i → r[i]? = df[i]?)) := by
  refine ⟨?_, fun g => ?_, fun X hX h1 h2 => ?_⟩
  · simp only [addDForce, hc, hk, Bool.false_eq_true, if_false, if_true]
    cases e.K.addMult mulVec df dx k <;> rfl
  · simp only [addDForce, hc, hk, Bool.false_eq_true, if_false, if_true]
  · have hX2 : (updateK bt e).mstate = some X := by rw [updateK_bound bt e X hX]; exact hX
    obtain ⟨r, hr, hlen, hget⟩ :=
      addDForce_assembled_diag mulVec bt (updateB bt (updateK bt e)) df dx k b X.length X.length
        (by rw [updateB_bound bt _ X hX2, updateK_bound bt e X hX]; exact hc)
        (by rw [updateB_bound bt _ X hX2, updateK_bound bt e X hX]; exact hk)
        (by rw [updateB_bound bt _ X hX2, updateK_bound bt e X hX])
        (by intro _; rw [updateB_bound bt _ X hX2, updateK_bound bt e X hX])
        (by rw [updateB_bound bt _ X hX2, updateK_bound bt e X hX]; exact h1)
        (by rw [updateB_bound bt _ X hX2, updateK_bound bt e X hX]; exact h2)
    have hmat : (updateB bt (updateK bt e)).material = e.material := by
      rw [updateB_bound bt _ X hX2, updateK_bound bt e X hX]
    have hfb : (updateB bt (updateK bt e)).assembleB = e.assembleB := by
      rw [updateB_bound bt _ X hX2, updateK_bound bt e X hX]
    rw [hmat, hfb] at hget
    refine ⟨r, hr, hlen, fun i m d y hm hd hy => ?_, fun i hi => ?_⟩
    · have hi : i < e.material.length := by
        rcases Nat.lt_or_ge i e.material.length with h | h
        · exact h
        · rw [List.getElem?_eq_none h] at hm; cases hm
      rw [hget i, if_pos hi, hm, hd, hy]; rfl
    · rw [hget i, if_neg (by omega)]

/-- A run of C4: two springs with stiffness and damping assembled, factors 2
and 3; the third entry of the buffers lies beyond the material array. -/
theorem addDForce_assembled_witness :
    addDForce (fun (m : Int) (d : Int) => m * d) (springBlock false)
        (updateB (springBlock false) (updateK (springBlock false)
          (springEngine false true true false))) [100, 200, 300] [1, 10, 7] 2 3
      = some [93, -10, 300] ∧
    (∀ g : MaterialBlock (Int × Int) → Int → Int → Int → Int → Int,
      addDForce (fun (m : Int) (d : Int) => m * d)
          { springBlock false with addDForce := g }
          (springEngine false true true false) [100, 200, 300] [1, 10, 7] 2 3
        = addDForce (fun (m : Int) (d : Int) => m * d) (springBlock false)
          (springEngine false true true false) [100, 200, 300] [1, 10, 7] 2 3) ∧
    (∃ r : List Int,
      addDForce (fun (m : Int) (d : Int) => m * d) (springBlock false)
          (updateB (springBlock false) (updateK (springBlock false)
            (springEngine false true true false))) [100, 200, 300] [1, 10, 7] 2 3 = some r ∧
      r.length = [(100 : Int), 200, 300].length ∧
      (∀ (i : Nat) m d y, (springEngine false true true false).material[i]? = some m →
        [(100 : Int), 200, 300][i]? = some d → [(1 : Int), 10, 7][i]? = some y →
        r[i]? = some (if (springEngine false true true false).assembleB then
            d + (2 : Int) • (fun (m : Int) (d : Int) => m * d) ((springBlock false).getK m) y
              + (3 : Int) • (fun (m : Int) (d : Int) => m * d) ((springBlock false).getB m) y
          else d + (2 : Int) • (fun (m : Int) (d : Int) => m * d) ((springBlock false).getK m) y)) ∧
      (∀ i : Nat, (springEngine false true true false).material.length ≤ i →
        r[i]? = [(100 : Int), 200, 300][i]?)) :=
  ⟨by decide,
    (addDForce_assembled (fun (m : Int) (d : Int) => m * d) (springBlock false)
      (springEngine false true true false) [100, 200, 300] [1, 10, 7] 2 3 rfl rfl).2.1,
    (addDForce_assembled (fun (m : Int) (d : Int) => m * d) (springBlock false)
      (springEngine false true true false) [100, 200, 300] [1, 10, 7] 2 3 rfl rfl).2.2
      [0, 0] rfl (by decide) (by decide)⟩

/-! ## Assembled path against matrix-free path -/

/-- C5, as stated, fails. The spring-damper material is constant-stiffness and
its linearized force law agrees with its own stiffness and damping blocks; with
assemble-damping clear, the assembled path (operators rebuilt by `reinit`)
leaves the damping term out, the matrix-free path does not. -/
theorem addDForce_paths_differ :
    (springBlock false).constantK = true ∧
    (∀ (m : MaterialBlock (Int × Int)) (d y k b : Int),
      (springBlock false).addDForce m d y k b
        = d + k • ((springBlock false).getK m * y) + b • ((springBlock false).getB m * y)) ∧
    addDForce (fun (m : Int) (d : Int) => m * d) (springBlock false)
        (reinit (springBlock false) (springEngine false true false false)) [0, 0] [1, 1] 1 1
      = some [-2, -3] ∧
    addDForce (fun (m : Int) (d : Int) => m * d) (springBlock false)
        (springEngine false false false false) [0, 0] [1, 1] 1 1
      = some [-3, -8] ∧
    addDForce (fun (m : Int) (d : Int) => m * d) (springBlock false)
        (reinit (springBlock false) (springEngine false true false false)) [0, 0] [1, 1] 1 1
      ≠ addDForce (fun (m : Int) (d : Int) => m * d) (springBlock false)
        (springEngine false false false false) [0, 0] [1, 1] 1 1 :=
  ⟨rfl, fun _ _ _ _ _ => rfl, by decide, by decide, by decide⟩

/-- C5, amended. For a material whose linearized force law agrees with its own
stiffness and damping blocks (block `i` maps `(df, dx, k, b)` to
`df + k * K_i * dx + b * B_i * dx`), on a coherent engine, for every position
delta, initial force delta and pair of factors: `addDForce` with
assemble-stiffness set and the operators rebuilt by `reinit` yields the same
force delta as `addDForce` with assemble-stiffness clear, provided
assemble-damping is set or the damping term `b * B_i * dx[i]` is zero for every
element; and the call succeeds when the buffers cover the material array. -/
theorem addDForce_paths_agree [AddMonoid Deriv] [SMul Real Deriv]
    (mulVec : MatBlock → Deriv → Deriv) (bt : BlockType P Coord Deriv MatBlock Real)
    (e : BaseMaterialForceField P Coord MatBlock) (df dx : List Deriv) (k b : Real)
    (hlaw : ∀ (m : MaterialBlock P) (d y : Deriv) (k b : Real),
      bt.addDForce m d y k b = d + k • mulVec (bt.getK m) y + b • mulVec (bt.getB m) y)
    (hcoh : Coherent e)
    (hdamp : e.assembleB = true ∨
      ∀ (i : Nat) m y, e.material[i]? = some m → dx[i]? = some y →
        b • mulVec (bt.getB m) y = 0) :
    addDForce mulVec bt (reinit bt { e with assembleK := true }) df dx k b
        = addDForce mulVec bt { e with assembleK := false } df dx k b ∧
    (e.material.length ≤ df.length → e.material.length ≤ dx.length →
      ∃ r : List Deriv,
        addDForce mulVec bt { e with assembleK := false } df dx k b = some r ∧
        r.length = df.length) := by
  by_cases hc : e.isCompliance = true
  case neg =>
    exact addDForce_paths_stiffness mulVec bt e df dx k b hlaw hcoh
      (Bool.eq_false_iff.mpr hc) hdamp
  case pos =>
    have hcoh1 : Coherent { e with assembleK := true } := hcoh
    have hre := updateEnabled_coherent bt { e with assembleK := true } hcoh1
    have hc1 : (reinit bt { e with assembleK := true }).isCompliance = true := by
      rw [reinit, hre]; exact hc
    have hfree : addDForce mulVec bt { e with assembleK := false } df dx k b = some df := by
      simp [addDForce, hc]
    refine ⟨?_, fun _ _ => ⟨df, hfree, rfl⟩⟩
    rw [hfree]
    simp [addDForce, hc1]

/-- A run of C5 amended: two springs, assemble-damping set, factors 2 and 3. -/
theorem addDForce_paths_agree_witness :
    addDForce (fun (m : Int) (d : Int) => m * d) (springBlock false)
        (reinit (springBlock false)
          { springEngine false false true false with assembleK := true })
        [100, 200, 300] [1, 10, 7] 2 3
      = addDForce (fun (m : Int) (d : Int) => m * d) (springBlock false)
        { springEngine false false true false with assembleK := false }
        [100, 200, 300] [1, 10, 7] 2 3 ∧
    ((springEngine false false true false).material.length ≤ [(100 : Int), 200, 300].length →
      (springEngine false false true false).material.length ≤ [(1 : Int), 10, 7].length →
      ∃ r : List Int,
        addDForce (fun (m : Int) (d : Int) => m * d) (springBlock false)
          { springEngine false false true false with assembleK := false }
          [100, 200, 300] [1, 10, 7] 2 3 = some r ∧
        r.length = [(100 : Int), 200, 300].length) :=
  addDForce_paths_agree (fun (m : Int) (d : Int) => m * d) (springBlock false)
    (springEngine false false true false) [100, 200, 300] [1, 10, 7] 2 3
    (fun _ _ _ _ _ => rfl) (fun h => Option.noConfusion h) (Or.inl rfl)

/-! ## Operators kept fresh by `addForce` -/

/-- C6. `addForce` on a coherent stiffness engine with buffers covering the
material array succeeds, and: when the material is not flagged
constant-stiffness, every operator (C, K, B) whose assemble flag is set is,
after the call, the block-diagonal assembly of the material blocks as they are
after the force evaluation, and every operator whose flag is clear is
unchanged; when the material is flagged constant-stiffness no operator
changes.  The flags and the motion state are unchanged in both cases. -/
theorem addForce_refreshes_operators (bt : BlockType P Coord Deriv MatBlock Real)
    (e : BaseMaterialForceField P Coord MatBlock) (f : List Deriv) (x : List Coord)
    (v : List Deriv) (hcoh : Coherent e) (hc : e.isCompliance = false)
    (hf : e.material.length ≤ f.length) (hx : e.material.length ≤ x.length)
    (hv : e.material.length ≤ v.length) :
    ∃ (e1 : BaseMaterialForceField P Coord MatBlock) (f1 : List Deriv),
      addForce bt e f x v = some (e1, f1) ∧
      (bt.constantK = false →
        (e.assembleC = true → e1.C = blockDiag (stateSize e.mstate) bt.getC e1.material) ∧
        (e.assembleK = true → e1.K = blockDiag (stateSize e.mstate) bt.getK e1.material) ∧
        (e.assembleB = true → e1.B = blockDiag (stateSize e.mstate) bt.getB e1.material) ∧
        (e.assembleC = false → e1.C = e.C) ∧
        (e.assembleK = false → e1.K = e.K) ∧
        (e.assembleB = false → e1.B = e.B)) ∧
      (bt.constantK = true → e1.C = e.C ∧ e1.K = e.K ∧ e1.B = e.B) ∧
      (∀ j : Nat, e1.material[j]? =
        (e.material[j]?).bind (fun m => (f[j]?).bind (fun a => (x[j]?).bind (fun y =>
          (v[j]?).map (fun w => (bt.addForce m a y w).1))))) ∧
      e1.assembleC = e.assembleC ∧ e1.assembleK = e.assembleK ∧ e1.assembleB = e.assembleB ∧
      e1.isCompliance = e.isCompliance ∧ e1.mstate = e.mstate := by
  obtain ⟨ms1, f1, _, hrun, _, hmlen, _, hmat⟩ := addForce_run bt e f x v hc hf hx hv
  have hcoh1 : Coherent { e with material := ms1 } := by
    intro hX
    obtain ⟨hm, hC, hK, hB⟩ := hcoh hX
    refine ⟨?_, hC, hK, hB⟩
    rw [hm] at hmlen
    exact List.eq_nil_of_length_eq_zero hmlen
  have hre := updateEnabled_coherent bt { e with material := ms1 } hcoh1
  refine ⟨_, f1, hrun, ?_, ?_, ?_, ?_⟩
  · intro hk
    rw [hk]
    simp only [Bool.false_eq_true, if_false, hre]
    refine ⟨fun h => ?_, fun h => ?_, fun h => ?_, fun h => ?_, fun h => ?_, fun h => ?_⟩ <;>
      simp [h]
  · intro hk
    rw [hk]
    simp
  · intro j
    cases bt.constantK
    · simp only [Bool.false_eq_true, if_false, hre]; exact hmat j
    · simp only [if_true]; exact hmat j
  · cases bt.constantK
    · simp only [Bool.false_eq_true, if_false, hre, and_self]
    · simp only [if_true, and_self]

/-- A run of C6: two hardening springs (not constant-stiffness), compliance
and stiffness assembled, damping not; after `addForce` the stiffness of each
block has risen by one and the two enabled operators follow. -/
theorem addForce_refreshes_operators_witness :
    addForce (springBlock true) (springEngine true true false false) [10, 20] [1, 2] [1, 1]
      = some ({ springEngine true true false false with
                material := [{ volume := none, params := (3, 1) },
                             { volume := none, params := (4, 5) }]
                C := { nbBlockRows := 2, nbBlockCols := 2, blocks := [(0, 0, 3), (1, 1, 4)],
                       incoming := [], openRow := none }
                K := { nbBlockRows := 2, nbBlockCols := 2, blocks := [(0, 0, -3), (1, 1, -4)],
                       incoming := [], openRow := none } }, [7, 9]) ∧
    ∃ (e1 : BaseMaterialForceField (Int × Int) Int Int) (f1 : List Int),
      addForce (springBlock true) (springEngine true true false false) [10, 20] [1, 2] [1, 1]
        = some (e1, f1) ∧
      e1.K = blockDiag (stateSize (springEngine true true false false).mstate)
        (springBlock true).getK e1.material ∧
      e1.B = (springEngine true true false false).B := by
  refine ⟨by decide, ?_⟩
  obtain ⟨e1, f1, h1, h2, _, _⟩ :=
    addForce_refreshes_operators (springBlock true) (springEngine true true false false)
      [10, 20] [1, 2] [1, 1] (fun h => Option.noConfusion h) rfl (by decide) (by decide)
      (by decide)
  exact ⟨e1, f1, h1, (h2 rfl).2.1 rfl, (h2 rfl).2.2.2.2.2 rfl⟩

/-! ## Lazy accessors -/

/-- C7. The lazy accessors on a coherent engine: `getComplianceMatrix` when
is-compliance is true, `getStiffnessMatrix` when it is false, and `getB` for
every is-compliance value (it never returns absent).  If the assemble flag of
the operator is clear, the call returns the block-diagonal assembly of the
current material blocks and leaves the engine with that operator stored, the
two other operators, the flags, the material array and the motion state being
unchanged; if the flag is set, the call returns the stored operator and leaves
the whole engine unchanged. -/
theorem accessors_lazy (bt : BlockType P Coord Deriv MatBlock Real)
    (e : BaseMaterialForceField P Coord MatBlock) (hcoh : Coherent e) :
    (e.isCompliance = true →
      (e.assembleC = false →
        getComplianceMatrix bt e =
          ({ e with C := blockDiag (stateSize e.mstate) bt.getC e.material },
            some (blockDiag (stateSize e.mstate) bt.getC e.material))) ∧
      (e.assembleC = true → getComplianceMatrix bt e = (e, some e.C))) ∧
    (e.isCompliance = false →
      (e.assembleK = false →
        getStiffnessMatrix bt e =
          ({ e with K := blockDiag (stateSize e.mstate) bt.getK e.material },
            some (blockDiag (stateSize e.mstate) bt.getK e.material))) ∧
      (e.assembleK = true → getStiffnessMatrix bt e = (e, some e.K))) ∧
    (e.assembleB = false →
      getB bt e =
        ({ e with B := blockDiag (stateSize e.mstate) bt.getB e.material },
          some (blockDiag (stateSize e.mstate) bt.getB e.material))) ∧
    (e.assembleB = true → getB bt e = (e, some e.B)) := by
  cases e with
  | mk ms mat fc c fk kk fb bb ic =>
    cases ms with
    | none =>
      obtain ⟨hm, hC, hK, hB⟩ := hcoh rfl
      simp only at hm hC hK hB
      subst hm hC hK hB
      refine ⟨fun h => ⟨fun h2 => ?_, fun h2 => ?_⟩, fun h => ⟨fun h2 => ?_, fun h2 => ?_⟩,
        fun h2 => ?_, fun h2 => ?_⟩ <;>
        simp only at h2 <;> (try simp only at h) <;> subst_vars <;>
        simp [getComplianceMatrix, getStiffnessMatrix, getB, updateC, updateK, updateB,
          stateSize, blockDiag_nil]
    | some X =>
      refine ⟨fun h => ⟨fun h2 => ?_, fun h2 => ?_⟩, fun h => ⟨fun h2 => ?_, fun h2 => ?_⟩,
        fun h2 => ?_, fun h2 => ?_⟩ <;>
        simp only at h2 <;> (try simp only at h) <;> subst_vars <;>
        simp [getComplianceMatrix, getStiffnessMatrix, getB, updateC, updateK, updateB,
          stateSize, rebuild_eq_blockDiag]

/-- A run of C7: on two springs with no assemble flag set, `getStiffnessMatrix`
builds and returns the 2 × 2 stiffness operator; with assemble-damping set,
`getB` returns the stored (here still empty) operator and changes nothing. -/
theorem accessors_lazy_witness :
    getStiffnessMatrix (springBlock false) (springEngine false false false false)
      = ({ springEngine false false false false with
            K := blockDiag (stateSize (springEngine false false false false).mstate)
              (springBlock false).getK (springEngine false false false false).material },
          some (blockDiag (stateSize (springEngine false false false false).mstate)
              (springBlock false).getK (springEngine false false false false).material)) ∧
    getB (springBlock false) (springEngine false false true false)
      = (springEngine false false true false, some (springEngine false false true false).B) :=
  ⟨((accessors_lazy (springBlock false) (springEngine false false false false)
      (fun h => Option.noConfusion h)).2.1 rfl).1 rfl,
    (accessors_lazy (springBlock false) (springEngine false false true false)
      (fun h => Option.noConfusion h)).2.2.2 rfl⟩

/-! ## Idempotence of `reinit` -/

/-- C8. Rebuild idempotence, for every engine state (any flags, any material
array, motion state bound or not): `reinit` called twice in succession yields
the same engine as `reinit` called once; in particular the three operators are
identical after the first and after the second call, and an operator whose
assemble flag is clear is left as it was by both calls. -/
theorem reinit_idempotent (bt : BlockType P Coord Deriv MatBlock Real)
    (e : BaseMaterialForceField P Coord MatBlock) :
    reinit bt (reinit bt e) = reinit bt e ∧
    ((reinit bt (reinit bt e)).C = (reinit bt e).C ∧
      (reinit bt (reinit bt e)).K = (reinit bt e).K ∧
      (reinit bt (reinit bt e)).B = (reinit bt e).B) ∧
    (e.assembleC = false → (reinit bt e).C = e.C ∧ (reinit bt (reinit bt e)).C = e.C) ∧
    (e.assembleK = false → (reinit bt e).K = e.K ∧ (reinit bt (reinit bt e)).K = e.K) ∧
    (e.assembleB = false → (reinit bt e).B = e.B ∧ (reinit bt (reinit bt e)).B = e.B) := by
  have hidem : reinit bt (reinit bt e) = reinit bt e := by
    cases e with
    | mk ms mat fc c fk kk fb bb ic =>
      cases ms with
      | none =>
        cases fc <;> cases fk <;> cases fb <;>
          simp [reinit, updateEnabled, updateC, updateK, updateB]
      | some X =>
        cases fc <;> cases fk <;> cases fb <;>
          simp [reinit, updateEnabled, updateC, updateK, updateB, rebuild_eq_blockDiag]
  have hoff : (e.assembleC = false → (reinit bt e).C = e.C) ∧
      (e.assembleK = false → (reinit bt e).K = e.K) ∧
      (e.assembleB = false → (reinit bt e).B = e.B) := by
    cases e with
    | mk ms mat fc c fk kk fb bb ic =>
      cases ms with
      | none =>
        cases fc <;> cases fk <;> cases fb <;>
          simp [reinit, updateEnabled, updateC, updateK, updateB]
      | some X =>
        cases fc <;> cases fk <;> cases fb <;>
          simp [reinit, updateEnabled, updateC, updateK, updateB]
  refine ⟨hidem, ?_, fun h => ?_, fun h => ?_, fun h => ?_⟩
  · rw [hidem]; exact ⟨rfl, rfl, rfl⟩
  · rw [hidem]; exact ⟨hoff.1 h, hoff.1 h⟩
  · rw [hidem]; exact ⟨hoff.2.1 h, hoff.2.1 h⟩
  · rw [hidem]; exact ⟨hoff.2.2 h, hoff.2.2 h⟩

/-- A run of C8: two springs, stiffness assembled, damping and compliance not:
both calls give the rebuilt stiffness operator and leave the damping operator
empty. -/
theorem reinit_idempotent_witness :
    (reinit (springBlock false) (springEngine false true false false)).K
      = { nbBlockRows := 2, nbBlockCols := 2, blocks := [(0, 0, -2), (1, 1, -3)],
          incoming := [], openRow := none } ∧
    (reinit (springBlock false) (springEngine false true false false)).B
      = (springEngine false true false false).B ∧
    (reinit (springBlock false) (reinit (springBlock false)
        (springEngine false true false false))).B
      = (springEngine false true false false).B :=
  ⟨by decide,
    (reinit_idempotent (springBlock false) (springEngine false true false false)).2.2.2.2 rfl⟩

/-! ## Initialization -/

/-- C9. `init` establishes the length invariant: for every previous material
array, when the engine is bound to a motion state of `n` positions, or finds
one in its context, `init` succeeds and leaves a material array of length
exactly `n`; every block's volume reference is absent when no sampler is found,
and when a sampler with at least `n` weights is found the volume reference of
block `i` refers to the sampler's weight at index `i`. -/
theorem init_length_invariant {W : Type} (bt : BlockType P Coord Deriv MatBlock Real)
    (e : BaseMaterialForceField P Coord MatBlock) (ctxState : Option (List Coord))
    (X : List Coord)
    (hX : e.mstate = some X ∨ (e.mstate = none ∧ ctxState = some X)) :
    (∃ e1, init bt ctxState (none : Option (List W)) e = some e1 ∧ e1.mstate = some X ∧
      e1.material.length = X.length ∧ ∀ m ∈ e1.material, m.volume = none) ∧
    (∀ weights : List W, X.length ≤ weights.length →
      ∃ e1, init bt ctxState (some weights) e = some e1 ∧ e1.mstate = some X ∧
        e1.material.length = X.length ∧
        ∀ i : Nat, i < X.length →
          ∃ m w, e1.material[i]? = some m ∧ m.volume = some i ∧ weights[i]? = some w) := by
  constructor
  · refine ⟨_, init_bound bt e ctxState none X hX, ?_, ?_, ?_⟩
    · rw [(reinit_preserves bt _).2]
    · rw [(reinit_preserves bt _).1]
      simp only [List.length_map, resizeMaterial_length]
    · rw [(reinit_preserves bt _).1]
      intro m hm
      simp only [List.mem_map] at hm
      obtain ⟨m0, _, rfl⟩ := hm
      rfl
  · intro weights hw
    obtain ⟨r, hr, hlen, hget⟩ :=
      bindVolumes_spec weights (resizeMaterial bt.fresh e.material X.length) 0
        (by rw [resizeMaterial_length]; omega)
    rw [resizeMaterial_length] at hlen
    refine ⟨reinit bt { e with mstate := some X, material := r }, ?_, ?_, ?_, ?_⟩
    · rw [init_bound bt e ctxState (some weights) X hX]
      simp only [hr]
    · rw [(reinit_preserves bt _).2]
    · rw [(reinit_preserves bt _).1]
      exact hlen
    · intro i hi
      rw [(reinit_preserves bt _).1]
      have hi2 : i < (resizeMaterial bt.fresh e.material X.length).length := by
        rw [resizeMaterial_length]; exact hi
      have hi3 : i < weights.length := by omega
      refine ⟨{ (resizeMaterial bt.fresh e.material X.length)[i] with volume := some i },
        weights[i], ?_, rfl, List.getElem?_eq_getElem hi3⟩
      simp only
      rw [hget i, List.getElem?_eq_getElem hi2]
      simp

/-- A run of C9: an engine holding two springs, bound to a motion state of
three positions; without sampler and with a sampler of four weights. -/
theorem init_length_invariant_witness :
    (∃ e1, init (springBlock false) none (none : Option (List Int))
        { springEngine false true false false with mstate := some [0, 0, 0] } = some e1 ∧
      e1.mstate = some [0, 0, 0] ∧ e1.material.length = [(0 : Int), 0, 0].length ∧
      ∀ m ∈ e1.material, m.volume = none) ∧
    init (springBlock false) none (some [(5 : Int), 6, 7, 8])
        { springEngine false true false false with mstate := some [0, 0, 0] }
      = some { springEngine false true false false with
          mstate := some [0, 0, 0]
          material := [{ volume := some 0, params := (2, 1) },
                       { volume := some 1, params := (3, 5) },
                       { volume := some 2, params := (0, 0) }]
          K := { nbBlockRows := 3, nbBlockCols := 3,
                 blocks := [(0, 0, -2), (1, 1, -3), (2, 2, 0)],
                 incoming := [], openRow := none } } :=
  ⟨(init_length_invariant (springBlock false)
      { springEngine false true false false with mstate := some [0, 0, 0] } none [0, 0, 0]
      (Or.inl rfl)).1, by decide⟩

/-! ## An engine without elements is inert -/

/-- C10. Inert when empty.  When `init` finds no compatible motion state it
returns with the engine exactly as before the call.  A freshly constructed
engine, with any setting of its four flags, is left as it is by such a failed
`init`, and `init` on a zero-element motion state (found in the context, or
bound at construction) only binds that state.  On either of these engines, for
every buffer and every pair of factors, `addForce` and `addDForce` succeed and
return the force buffer unchanged, every rebuild leaves the engine as it is (no
block row is opened), and every accessor returns the empty operator or absent,
the engine being unchanged. -/
theorem inert_when_empty {W : Type} [Add Deriv] [SMul Real Deriv]
    (mulVec : MatBlock → Deriv → Deriv) (bt : BlockType P Coord Deriv MatBlock Real)
    (sampler : Option (List W)) :
    (∀ e : BaseMaterialForceField P Coord MatBlock, e.mstate = none →
      init bt none sampler e = some e) ∧
    (∀ aC aK aB isC : Bool,
      init bt none sampler (constructWith none aC aK aB isC)
        = some (constructWith none aC aK aB isC) ∧
      init bt (some []) sampler (constructWith none aC aK aB isC)
        = some (constructWith (some []) aC aK aB isC) ∧
      (∀ ctxState : Option (List Coord),
        init bt ctxState sampler (constructWith (some []) aC aK aB isC)
          = some (constructWith (some []) aC aK aB isC)) ∧
      (∀ mm : Option (List Coord), mm = none ∨ mm = some [] →
        (∀ (f : List Deriv) (x : List Coord) (v : List Deriv),
          addForce bt (constructWith mm aC aK aB isC) f x v
            = some (constructWith mm aC aK aB isC, f)) ∧
        (∀ (df dx : List Deriv) (k b : Real),
          addDForce mulVec bt (constructWith mm aC aK aB isC) df dx k b = some df) ∧
        updateC bt (constructWith mm aC aK aB isC) = constructWith mm aC aK aB isC ∧
        updateK bt (constructWith mm aC aK aB isC) = constructWith mm aC aK aB isC ∧
        updateB bt (constructWith mm aC aK aB isC) = constructWith mm aC aK aB isC ∧
        reinit bt (constructWith mm aC aK aB isC) = constructWith mm aC aK aB isC ∧
        getComplianceMatrix bt (constructWith mm aC aK aB isC)
          = (constructWith mm aC aK aB isC, if isC then some BlockSparse.empty else none) ∧
        getStiffnessMatrix bt (constructWith mm aC aK aB isC)
          = (constructWith mm aC aK aB isC, if isC then none else some BlockSparse.empty) ∧
        getB bt (constructWith mm aC aK aB isC)
          = (constructWith mm aC aK aB isC, some BlockSparse.empty))) := by
  have hup : ∀ (mm : Option (List Coord)) (aC aK aB isC : Bool), mm = none ∨ mm = some [] →
      updateC bt (constructWith mm aC aK aB isC) = constructWith mm aC aK aB isC ∧
      updateK bt (constructWith mm aC aK aB isC) = constructWith mm aC aK aB isC ∧
      updateB bt (constructWith mm aC aK aB isC) = constructWith mm aC aK aB isC := by
    intro mm aC aK aB isC hmm
    rcases hmm with rfl | rfl
    · exact ⟨rfl, rfl, rfl⟩
    · refine ⟨?_, ?_, ?_⟩
      · rw [updateC_bound bt _ [] rfl]; rfl
      · rw [updateK_bound bt _ [] rfl]; rfl
      · rw [updateB_bound bt _ [] rfl]; rfl
  have hre : ∀ (mm : Option (List Coord)) (aC aK aB isC : Bool), mm = none ∨ mm = some [] →
      updateEnabled bt (constructWith mm aC aK aB isC) = constructWith mm aC aK aB isC := by
    intro mm aC aK aB isC hmm
    obtain ⟨h1, h2, h3⟩ := hup mm aC aK aB isC hmm
    unfold updateEnabled
    simp only [h1, h2, h3, ite_self]
  refine ⟨fun e he => ?_, fun aC aK aB isC => ⟨?_, ?_, fun ctxState => ?_, fun mm hmm => ?_⟩⟩
  · simp only [init, he]
  · rfl
  · have h0 : init bt (some []) sampler
          (constructWith none aC aK aB isC : BaseMaterialForceField P Coord MatBlock)
        = some (reinit bt (constructWith (some []) aC aK aB isC)) := by
      cases sampler <;> rfl
    rw [h0, reinit, hre _ _ _ _ _ (Or.inr rfl)]
  · have h0 : init bt ctxState sampler
          (constructWith (some []) aC aK aB isC : BaseMaterialForceField P Coord MatBlock)
        = some (reinit bt (constructWith (some []) aC aK aB isC)) := by
      cases sampler <;> rfl
    rw [h0, reinit, hre _ _ _ _ _ (Or.inr rfl)]
  · obtain ⟨h1, h2, h3⟩ := hup mm aC aK aB isC hmm
    have h4 := hre mm aC aK aB isC hmm
    refine ⟨fun f x v => ?_, fun df dx k b => ?_, h1, h2, h3, h4, ?_, ?_, ?_⟩
    · have hloop : addForce bt (constructWith mm aC aK aB isC) f x v
          = if isC then some (constructWith mm aC aK aB isC, f)
            else if !bt.constantK then
              some (updateEnabled bt (constructWith mm aC aK aB isC), f)
            else some (constructWith mm aC aK aB isC, f) := rfl
      rw [hloop, h4]
      cases isC <;> cases bt.constantK <;> rfl
    · cases isC <;> cases aK <;> cases aB <;> rfl
    · unfold getComplianceMatrix
      cases isC <;> cases aC <;> simp only [h1] <;> rfl
    · unfold getStiffnessMatrix
      cases isC <;> cases aK <;> simp only [h2] <;> rfl
    · unfold getB
      cases aB <;> simp only [h3] <;> rfl

/-- A run of C10: a fresh engine with no motion state and every flag but
is-compliance set, a state-dependent material, buffers of two entries. -/
theorem inert_when_empty_witness :
    init (springBlock true) none (some [(1 : Int), 2])
        ({ springEngine true true true false with mstate := none })
      = some { springEngine true true true false with mstate := none } ∧
    (∀ (f : List Int) (x : List Int) (v : List Int),
      addForce (springBlock true) (constructWith none true true true false) f x v
        = some (constructWith none true true true false, f)) ∧
    (∀ (df dx : List Int) (k b : Int),
      addDForce (fun (m : Int) (d : Int) => m * d) (springBlock true)
        (constructWith none true true true false) df dx k b = some df) :=
  ⟨(inert_when_empty (fun (m : Int) (d : Int) => m * d) (springBlock true)
      (some [(1 : Int), 2])).1 _ rfl,
    (((inert_when_empty (fun (m : Int) (d : Int) => m * d) (springBlock true)
      (some [(1 : Int), 2])).2 true true true false).2.2.2 none (Or.inl rfl)).1,
    (((inert_when_empty (fun (m : Int) (d : Int) => m * d) (springBlock true)
      (some [(1 : Int), 2])).2 true true true false).2.2.2 none (Or.inl rfl)).2.1⟩

end Claims

end Flexible

/-! ## Contact points of the sphere proxy -/

namespace Collision

/-- C11. Contact-point geometry of the generic sphere proxy, in exact
arithmetic: for a proxy whose center is `c` and whose radius is `r`, and every
contact normal `u`, `getContactPointByNormal` returns `c - r * u` component by
component, so `c = (0,0,0)`, `r = 2`, `u = (1,0,0)` gives `(-2,0,0)`; and for
every surface point `p`, `getContactPointWithSurfacePoint` returns `p`
unchanged, whatever the proxy, its center and its radius are. -/
theorem contact_point_geometry {R Coord : Type} [CommRing R]
    (getCPos : Coord → Vector3 R) (s : TSphere R Coord) (c u : Vector3 R) (r : R)
    (hc : s.center getCPos = some c) (hr : s.r = some r) :
    s.getContactPointByNormal getCPos u
        = some { x := c.x - r * u.x, y := c.y - r * u.y, z := c.z - r * u.z } ∧
    (c = { x := 0, y := 0, z := 0 } → r = 2 → u = { x := 1, y := 0, z := 0 } →
      s.getContactPointByNormal getCPos u = some { x := -2, y := 0, z := 0 }) ∧
    (∀ (t : TSphere R Coord) (p : Vector3 R), t.getContactPointWithSurfacePoint p = p) := by
  have hmain : s.getContactPointByNormal getCPos u
      = some { x := c.x - r * u.x, y := c.y - r * u.y, z := c.z - r * u.z } := by
    simp only [TSphere.getContactPointByNormal, hc, hr, Vector3.sub, Vector3.mulScalar,
      mul_comm]
  refine ⟨hmain, fun h1 h2 h3 => ?_, fun _ _ => rfl⟩
  rw [hmain, h1, h2, h3]
  simp

/-- A run of C11: the sphere of radius 2 at the origin and the normal
`(1,0,0)`. -/
theorem contact_point_geometry_witness :
    originSphere.center id = some { x := 0, y := 0, z := 0 } ∧ originSphere.r = some 2 ∧
    originSphere.getContactPointByNormal id { x := 1, y := 0, z := 0 }
      = some { x := -2, y := 0, z := 0 } ∧
    originSphere.getContactPointWithSurfacePoint { x := 7, y := 8, z := 9 }
      = ({ x := 7, y := 8, z := 9 } : Vector3 Int) :=
  ⟨by decide, by decide,
    (contact_point_geometry id originSphere { x := 0, y := 0, z := 0 }
      { x := 1, y := 0, z := 0 } 2 (by decide) (by decide)).2.1 rfl rfl rfl,
    (contact_point_geometry id originSphere { x := 0, y := 0, z := 0 }
      { x := 1, y := 0, z := 0 } 2 (by decide) (by decide)).2.2 originSphere
      { x := 7, y := 8, z := 9 }⟩

end Collision
